import Mathlib

/-!
Verification of the `ods-exd-api-box` EXD-API plugin core against its
natural-language specification.

The development shallowly embeds the Python sources:

* `ods_exd_api_box/simple/file_simple.py` (`FileSimpleCache`, `FileSimple`):
  data-type inference, structure building, value marshaling, handle lifecycle;
* `ods_exd_api_box/utils/param_parser.py` (`ParamParser.parse_params`);
* `ods_exd_api_box/utils/time_helper.py` (`TimeHelper.to_asam_ods_time`);
* `ods_exd_api_box/utils/attribs_helper.py` (`AttribsHelper.add`).

Python strings are modelled as lists of unicode code points (`PStr`), bytes as
lists of naturals below 256.  Floating-point payloads are never computed with
in the embedded code paths - they are only moved verbatim - so a float value is
carried as its IEEE bit pattern (a `Nat`).  Error classes follow the spec's
taxonomy; each constructor corresponds to one distinct Python raise site.
-/

namespace OdsBox

/-- Python `str` values, modelled as lists of unicode code points. -/
abbrev PStr := List Char

/-- Wire data types of `ods.DataTypeEnum` that the plugin produces.
`DT_UNKNOWN` stands for every remaining enumeration value, none of which the
embedded code ever constructs. -/
inductive OdsDataType where
  | DT_BYTE
  | DT_SHORT
  | DT_LONG
  | DT_LONGLONG
  | DT_FLOAT
  | DT_DOUBLE
  | DT_DATE
  | DT_STRING
  | DT_COMPLEX
  | DT_DCOMPLEX
  | DT_UNKNOWN
  deriving DecidableEq, Repr

/-- The numpy/pandas column dtypes distinguished by
`FileSimpleCache._get_datatype`.  `intOther` stands for an integer dtype that
is none of the eight explicitly tested widths; `unknownDt` stands for a dtype
for which every `pd.api.types` predicate used by the code is false
(e.g. `timedelta64`). -/
inductive NpDtype where
  | int8
  | uint8
  | int16
  | uint16
  | int32
  | uint32
  | int64
  | uint64
  | intOther
  | float32
  | float64
  | complex64
  | complex128
  | datetime64
  | stringDt
  | unknownDt
  deriving DecidableEq, Repr, Fintype

namespace NpDtype

/-- Embeds `pd.api.types.is_string_dtype`. -/
def is_string_dtype : NpDtype → Bool
  | stringDt => true
  | _ => false

/-- Embeds `pd.api.types.is_complex_dtype`. -/
def is_complex_dtype : NpDtype → Bool
  | complex64 => true
  | complex128 => true
  | _ => false

/-- Embeds `pd.api.types.is_datetime64_any_dtype`. -/
def is_datetime64_any_dtype : NpDtype → Bool
  | datetime64 => true
  | _ => false

/-- Embeds `pd.api.types.is_float_dtype`. -/
def is_float_dtype : NpDtype → Bool
  | float32 => true
  | float64 => true
  | _ => false

/-- Embeds `pd.api.types.is_integer_dtype`. -/
def is_integer_dtype : NpDtype → Bool
  | int8 => true
  | uint8 => true
  | int16 => true
  | uint16 => true
  | int32 => true
  | uint32 => true
  | int64 => true
  | uint64 => true
  | intOther => true
  | _ => false

end NpDtype

/-- Error outcomes of the embedded code, one constructor per distinct Python
raise site, named after the spec's error taxonomy:

* `invalidHandle`          - `RuntimeError("File is not opened!")`;
* `invalidArgument`        - `ValueError` for bad group/channel/start or a
                             non-string parameter argument;
* `notMyFile`              - `NotMyFileError`;
* `unsupportedColumnType`  - `NotImplementedError` in `_get_datatype` /
                             `get_values`;
* `unassignableAttribute`  - `ValueError` in `AttribsHelper.add`;
* `unsupportedTimeValue`   - `ValueError` in `TimeHelper.to_asam_ods_time`. -/
inductive Err where
  | invalidHandle
  | invalidArgument
  | notMyFile
  | unsupportedColumnType
  | unassignableAttribute
  | unsupportedTimeValue
  deriving DecidableEq, Repr

/-- Embeds `FileSimpleCache._get_datatype` (file_simple.py lines 126-168):
the `pd.api.types` predicate cascade - string, complex, datetime, float,
integer, in that order - with the integer width/signedness table, and
`NotImplementedError` for anything unrecognized. -/
def get_datatype (data_type : NpDtype) : Except Err OdsDataType :=
  if data_type.is_string_dtype then
    .ok .DT_STRING
  else if data_type.is_complex_dtype then
    if data_type = .complex64 then .ok .DT_COMPLEX
    else .ok .DT_DCOMPLEX
  else if data_type.is_datetime64_any_dtype then
    .ok .DT_DATE
  else if data_type.is_float_dtype then
    if data_type = .float32 then .ok .DT_FLOAT
    else .ok .DT_DOUBLE
  else if data_type.is_integer_dtype then
    if data_type = .int8 then .ok .DT_SHORT
    else if data_type = .uint8 then .ok .DT_BYTE
    else if data_type = .int16 then .ok .DT_SHORT
    else if data_type = .uint16 then .ok .DT_LONG
    else if data_type = .int32 then .ok .DT_LONG
    else if data_type = .uint32 then .ok .DT_LONGLONG
    else if data_type = .int64 then .ok .DT_LONGLONG
    else if data_type = .uint64 then .ok .DT_DOUBLE
    else .ok .DT_LONG
  else
    .error .unsupportedColumnType

/-! ## TimeHelper (utils/time_helper.py) -/

/-- Inputs accepted by `TimeHelper.to_asam_ods_time`, one constructor per
`isinstance`/dtype branch of the Python code:

* `np64` - a numpy `datetime64`; the code renders it to an ISO string and
  re-parses with `datetime.datetime.fromisoformat`, so the embedding carries
  the ISO rendering's calendar fields and the list of fractional-second
  digits (empty when the unit prints no dot);
* `pyDatetime` - `datetime.datetime` with microseconds (its constructor
  keeps the year within 1..9999);
* `pyDate` - `datetime.date` (year within 1..9999 likewise);
* `unixInt` - an `int` Unix timestamp;
* `unixFloat` - a `float` Unix timestamp.  `datetime.fromtimestamp` splits
  it with `modf` and rounds the fraction to microseconds, carrying into the
  seconds when the rounding overflows; the embedding carries the resulting
  whole-second instant `t` and the nanosecond count
  `ns = int((value % 1) * 1e9)`.  `value % 1` lies in `[0, 1)` and the
  product never rounds up to `1e9`, so `ns < 10^9` on every real input; the
  floating-point arithmetic itself is not re-derived, only its two results
  are carried;
* `unsupported` - any other input, which falls through to the final raise. -/
inductive TimeValue where
  | np64 (y mo d h mi s : Nat) (frac : List Nat)
  | pyDatetime (y mo d h mi s us : Nat)
  | pyDate (y mo d : Nat)
  | unixInt (t : Int)
  | unixFloat (t : Int) (ns : Nat)
  | unsupported
  deriving DecidableEq, Repr

/-- Decimal digit character: `digitChar d` is `'0'` + d for d < 10. -/
def digitChar (d : Nat) : Char := Char.ofNat (48 + d)

/-- Two-digit zero-padded decimal rendering (`%02d` for values below 100;
the datetime fields the code formats are always in range). -/
def pad2 (n : Nat) : PStr := [digitChar (n / 10 % 10), digitChar (n % 10)]

/-- Four-digit zero-padded decimal rendering (used for years of four
digits; CPython's `datetime` rejects years above 9999). -/
def pad4 (n : Nat) : PStr :=
  [digitChar (n / 1000 % 10), digitChar (n / 100 % 10),
   digitChar (n / 10 % 10), digitChar (n % 10)]

/-- glibc `strftime('%Y')`, to which CPython delegates: the year in plain
decimal with no zero padding, so years below 1000 print with fewer than four
digits (`date(50, 1, 15).strftime('%Y')` is `'50'`).  The `% 10` in the
single-digit branch is a no-op under the guard and keeps every entry in the
image of `digitChar` on `0..9`. -/
def fmtYear (n : Nat) : PStr :=
  if n < 10 then [digitChar (n % 10)]
  else if n < 100 then [digitChar (n / 10 % 10), digitChar (n % 10)]
  else if n < 1000 then
    [digitChar (n / 100 % 10), digitChar (n / 10 % 10), digitChar (n % 10)]
  else pad4 n

/-- Nine-digit zero-padded decimal rendering (`f'\x7bns:09d\x7d'` for
nanosecond counts below 10^9). -/
def pad9 (n : Nat) : PStr :=
  [digitChar (n / 100000000 % 10), digitChar (n / 10000000 % 10),
   digitChar (n / 1000000 % 10), digitChar (n / 100000 % 10),
   digitChar (n / 10000 % 10), digitChar (n / 1000 % 10),
   digitChar (n / 100 % 10), digitChar (n / 10 % 10), digitChar (n % 10)]

/-- Embeds `strftime('%Y%m%d%H%M%S')` on a (valid) datetime: the glibc
unpadded year followed by the two-digit calendar and clock fields. -/
def fmtDateTime (y mo d h mi s : Nat) : PStr :=
  fmtYear y ++ pad2 mo ++ pad2 d ++ pad2 h ++ pad2 mi ++ pad2 s

/-- Embeds `str.rstrip('0')`. -/
def rstrip0 (l : PStr) : PStr := (l.reverse.dropWhile (fun c => c = '0')).reverse

/-- Embeds `iso_str.split('.')[1][:9].ljust(9, '0')` - take at most nine
fractional digits and right-pad with zeros; an empty digit list models an ISO
rendering without a dot, for which the code uses `'000000000'`. -/
def fracNine (frac : List Nat) : PStr :=
  (frac.take 9).map digitChar ++ List.replicate (9 - (frac.take 9).length) '0'

/-- Days-since-epoch to civil date (the conversion performed by
`datetime.datetime.fromtimestamp(_, tz=datetime.timezone.utc)`). -/
def civilFromDays (days : Int) : Int × Nat × Nat :=
  let z := days + 719468
  let era := z.fdiv 146097
  let doe := (z - era * 146097).toNat
  let yoe := (doe - doe / 1460 + doe / 36524 - doe / 146096) / 365
  let y : Int := (yoe : Int) + era * 400
  let doy := doe - (365 * yoe + yoe / 4 - yoe / 100)
  let mp := (5 * doy + 2) / 153
  let d := doy - (153 * mp + 2) / 5 + 1
  let m := if mp < 10 then mp + 3 else mp - 9
  (if m ≤ 2 then y + 1 else y, m, d)

/-- UTC calendar fields `(y, mo, d, h, mi, s)` of an integer Unix timestamp.
The year stays an `Int` so the out-of-range instants
`datetime.datetime.fromtimestamp` rejects (year before 1 or after 9999) are
visible to the caller. -/
def fromtimestampUTC (t : Int) : Int × Nat × Nat × Nat × Nat × Nat :=
  let days := t.fdiv 86400
  let secs := (t - days * 86400).toNat
  let c := civilFromDays days
  (c.1, c.2.1, c.2.2, secs / 3600, secs / 60 % 60, secs % 60)

/-- Embeds `TimeHelper.to_asam_ods_time` (time_helper.py lines 28-64), branch
by branch.
* `np64`: `fromisoformat` accepts exactly the years 1..9999; outside that
  range it raises, the `except` re-raises a `ValueError`, and no string is
  produced.
* `unixInt`/`unixFloat`: `fromtimestamp` likewise raises when the instant's
  UTC year leaves 1..9999 (the `OverflowError`/`ValueError` is caught by the
  `except Exception` and re-raised as `ValueError`).  For an `int` timestamp
  `int((value % 1) * 1e9)` is zero, so the fractional suffix is `rstrip0` of
  nine zeros; a `float` carries its nanosecond count `ns`.
* `pyDatetime`/`pyDate`: constructible `datetime`/`date` objects always have
  year 1..9999, so those branches never raise in the source. -/
def to_asam_ods_time : TimeValue → Except Err PStr
  | .np64 y mo d h mi s frac =>
      if y < 1 ∨ 9999 < y then .error .unsupportedTimeValue
      else .ok (fmtDateTime y mo d h mi s ++ rstrip0 (fracNine frac))
  | .pyDatetime y mo d h mi s us =>
      .ok (fmtDateTime y mo d h mi s ++ rstrip0 (pad9 (us * 1000)))
  | .pyDate y mo d =>
      .ok (fmtYear y ++ pad2 mo ++ pad2 d ++ "000000".toList)
  | .unixInt t =>
      let c := fromtimestampUTC t
      if c.1 < 1 ∨ 9999 < c.1 then .error .unsupportedTimeValue
      else .ok (fmtDateTime c.1.toNat c.2.1 c.2.2.1 c.2.2.2.1 c.2.2.2.2.1
           c.2.2.2.2.2 ++ rstrip0 (pad9 0))
  | .unixFloat t ns =>
      let c := fromtimestampUTC t
      if c.1 < 1 ∨ 9999 < c.1 then .error .unsupportedTimeValue
      else .ok (fmtDateTime c.1.toNat c.2.1 c.2.2.1 c.2.2.2.1 c.2.2.2.2.1
           c.2.2.2.2.2 ++ rstrip0 (pad9 ns))
  | .unsupported => .error .unsupportedTimeValue

/-- Year of the datetime handed to `strftime` - the `%Y` field of the
output (for timestamps, the UTC year of the instant). -/
def TimeValue.year : TimeValue → Nat
  | .np64 y .. => y
  | .pyDatetime y .. => y
  | .pyDate y .. => y
  | .unixInt t => (fromtimestampUTC t).1.toNat
  | .unixFloat t _ => (fromtimestampUTC t).1.toNat
  | .unsupported => 0

/-! ## AttribsHelper (utils/attribs_helper.py) -/

/-- Embeds `TimeHelper.is_datetime_type`: `datetime`/`date` instances and
numpy `datetime64` values are temporal; numerics and anything else are not. -/
def TimeValue.is_datetime_type : TimeValue → Bool
  | .np64 .. => true
  | .pyDatetime .. => true
  | .pyDate .. => true
  | .unixInt _ => false
  | .unixFloat .. => false
  | .unsupported => false

/-- Attribute values handed to `AttribsHelper.add`, one constructor per
`isinstance` branch; `vother` is any value matching none of them.  A float is
carried as its IEEE bit pattern, since the code only moves it verbatim. -/
inductive AttrVal where
  | vnull
  | vbool (b : Bool)
  | vint (v : Int)
  | vfloat (bits : Nat)
  | vstr (s : PStr)
  | vtime (t : TimeValue)
  | vother
  deriving DecidableEq, Repr

/-- One entry of `ods.ContextVariables.variables`: the typed arrays the
helper appends to. -/
structure OdsVariable where
  boolean_array : List Bool
  long_array : List Int
  double_array : List Nat
  string_array : List PStr
  deriving DecidableEq, Repr

/-- Fresh protobuf map entry (all arrays empty). -/
def emptyVar : OdsVariable := ⟨[], [], [], []⟩

/-- A `ods.ContextVariables` map, keeping protobuf map semantics on an
association list with unique keys. -/
abbrev Ctx := List (PStr × OdsVariable)

/-- Embeds `del attributes.variables[name]` guarded by `name in variables`. -/
def ctxDel (ctx : Ctx) (name : PStr) : Ctx :=
  ctx.filter (fun kv => ¬ kv.1 = name)

/-- Embeds `attributes.variables[name].<array>.append(..)`: a protobuf map
access creates a default entry when the key is missing, then the update `f`
appends to one of its arrays. -/
def ctxUpd (ctx : Ctx) (name : PStr) (f : OdsVariable → OdsVariable) : Ctx :=
  match ctx with
  | [] => [(name, f emptyVar)]
  | kv :: rest =>
      if kv.1 = name then (kv.1, f kv.2) :: rest
      else kv :: ctxUpd rest name f

/-- Looks a key up in a `Ctx` (used only in theorem statements). -/
def ctxFind (ctx : Ctx) (name : PStr) : Option OdsVariable :=
  (ctx.find? (fun kv => kv.1 = name)).map (·.2)

/-- Embeds `AttribsHelper.add` (attribs_helper.py lines 16-33; the module
`attribute_helper` imported by file_simple.py re-exports this helper).  The
Python loop mutates `attributes` in place and a raise aborts the loop, so the
embedding returns the context as mutated so far together with the error. -/
def attribsAdd (ctx : Ctx) : List (PStr × AttrVal) → Ctx × Option Err
  | [] => (ctx, none)
  | (name, v) :: rest =>
    match v with
    | .vnull =>
        attribsAdd (if (ctxFind ctx name).isSome then ctxDel ctx name else ctx) rest
    | .vbool b =>
        attribsAdd (ctxUpd ctx name
          (fun va => { va with boolean_array := va.boolean_array ++ [b] })) rest
    | .vint n =>
        attribsAdd (ctxUpd ctx name
          (fun va => { va with long_array := va.long_array ++ [n] })) rest
    | .vfloat bits =>
        attribsAdd (ctxUpd ctx name
          (fun va => { va with double_array := va.double_array ++ [bits] })) rest
    | .vstr s =>
        attribsAdd (ctxUpd ctx name
          (fun va => { va with string_array := va.string_array ++ [s] })) rest
    | .vtime t =>
        if t.is_datetime_type then
          match to_asam_ods_time t with
          | .ok s =>
              attribsAdd (ctxUpd ctx name
                (fun va => { va with string_array := va.string_array ++ [s] })) rest
          | .error e => (ctx, some e)
        else (ctx, some .unassignableAttribute)
    | .vother => (ctx, some .unassignableAttribute)

/-! ## Columnar data model (the pandas `DataFrame` seen by `FileSimpleCache`) -/

/-- One cell of a pandas column.  Float and complex components are IEEE bit
patterns carried verbatim; a datetime cell carries the `TimeValue` that
`TimeHelper` would receive. -/
inductive Cell where
  | intv (v : Int)
  | floatv (bits : Nat)
  | strv (s : PStr)
  | timev (t : TimeValue)
  | complexv (re im : Nat)
  deriving DecidableEq, Repr

namespace Cell

/-- Integer payload of a cell (0 on a kind mismatch, which well-formed
columns rule out). -/
def intVal : Cell → Int
  | .intv v => v
  | _ => 0

/-- Float bit-pattern payload of a cell. -/
def bitsVal : Cell → Nat
  | .floatv b => b
  | _ => 0

/-- String payload of a cell. -/
def strVal : Cell → PStr
  | .strv s => s
  | _ => []

/-- Datetime payload of a cell. -/
def timeVal : Cell → TimeValue
  | .timev t => t
  | _ => .unsupported

/-- Real component of a complex cell. -/
def reVal : Cell → Nat
  | .complexv re _ => re
  | _ => 0

/-- Imaginary component of a complex cell. -/
def imVal : Cell → Nat
  | .complexv _ im => im
  | _ => 0

end Cell

/-- Cell kind demanded by a column dtype (well-formedness of a column).  A
pandas `datetime64[ns]` cell holds a 64-bit nanosecond count, so its year is
confined to the `pd.Timestamp` range 1677..2262 (`pd.Timestamp.min` to
`pd.Timestamp.max`); a cell outside that range cannot occur in a `datetime64`
column. -/
def cellMatches (dt : NpDtype) (c : Cell) : Bool :=
  match dt, c with
  | .float32, .floatv _ => true
  | .float64, .floatv _ => true
  | .complex64, .complexv _ _ => true
  | .complex128, .complexv _ _ => true
  | .datetime64, .timev (.np64 y _ _ _ _ _ _) => decide (1677 ≤ y ∧ y ≤ 2262)
  | .stringDt, .strv _ => true
  | .int8, .intv _ => true
  | .uint8, .intv _ => true
  | .int16, .intv _ => true
  | .uint16, .intv _ => true
  | .int32, .intv _ => true
  | .uint32, .intv _ => true
  | .int64, .intv _ => true
  | .uint64, .intv _ => true
  | .intOther, .intv _ => true
  | _, _ => false

/-- One column of the `DataFrame`: its label (`data.columns`), dtype and
cells. -/
structure Column where
  name : Option PStr
  dtype : NpDtype
  cells : List Cell
  deriving DecidableEq, Repr

/-- The `DataFrame` returned by the backend's `data()`: `nrows` is
`shape[0]`; every column is expected to carry `nrows` cells (stated as a
hypothesis where a theorem needs it). -/
structure PandasData where
  nrows : Nat
  cols : List Column
  deriving DecidableEq, Repr

/-- A concrete backend (`FileSimpleInterface` implementation) as seen through
`FileSimpleCache`: the flag, the data frame and the metadata the interface
methods return.  The cache's lock and lazy construction are concurrency
machinery with no effect on single-request semantics and are not modelled. -/
structure Backend where
  notMyFile : Bool
  pdata : PandasData
  fileAttrs : List (PStr × AttrVal)
  groupAttrs : List (PStr × AttrVal)
  columnNamesOverride : Option (List (Option PStr))
  columnUnits : List PStr
  columnDescriptions : List PStr
  deriving DecidableEq, Repr

/-- Effectful map over a list in the `Except` monad, the semantics of a
Python loop that may raise: the first raise aborts the whole computation. -/
def mapME {α β : Type} (f : α → Except Err β) : List α → Except Err (List β)
  | [] => .ok []
  | a :: rest =>
    match f a with
    | .error e => .error e
    | .ok y =>
      match mapME f rest with
      | .error e => .error e
      | .ok ys => .ok (y :: ys)

namespace Backend

/-- Embeds `FileSimpleCache.number_of_rows`. -/
def number_of_rows (b : Backend) : Nat := b.pdata.nrows

/-- Embeds `FileSimpleCache.number_of_columns`. -/
def number_of_columns (b : Backend) : Nat := b.pdata.cols.length

/-- Embeds `FileSimpleCache.column_names`: the backend's override if not
`None`, else `data.columns.tolist()`. -/
def column_names (b : Backend) : List (Option PStr) :=
  match b.columnNamesOverride with
  | some l => l
  | none => b.pdata.cols.map (·.name)

/-- Embeds `FileSimpleCache.column_datatypes`: `_get_datatype` over all
column dtypes; the first unsupported dtype raises. -/
def column_datatypes (b : Backend) : Except Err (List OdsDataType) :=
  mapME (fun c => get_datatype c.dtype) b.pdata.cols

/-- Embeds `FileSimpleCache.column_data(index).iloc` access: the cells of
column `index`.  The Python `IndexError` guard (`index >= data.shape[1]`) is
re-checked by every caller before the access, so the embedding totalizes with
a default. -/
def column_cells (b : Backend) (index : Nat) : List Cell :=
  (b.pdata.cols.getD index ⟨none, .unknownDt, []⟩).cells

end Backend

/-! ## Independent-axis detection (`FileSimpleCache.leading_independent`)

pandas compares column values with the element type's own linear order.  The
embedding gives `Cell` a comparison that restricts to the natural order on
each homogeneous kind (integers, float bit patterns, strings, datetimes) and
never relates cells of different kinds; complex cells are incomparable, as in
numpy. -/

/-- Lexicographic strict order on strings (Python `<` on `str`). -/
def lexLt : PStr → PStr → Bool
  | [], [] => false
  | [], _ :: _ => true
  | _ :: _, [] => false
  | a :: as, b :: bs => if a < b then true else if a = b then lexLt as bs else false

/-- Numeric key of a datetime value: calendar fields weighted so that the
chronological order of valid datetimes agrees with the numeric order of
keys, plus the fractional-second digits scaled to nanoseconds. -/
def timeKey : TimeValue → Nat
  | .np64 y mo d h mi s frac =>
      ((((((y * 13 + mo) * 32 + d) * 24 + h) * 60 + mi) * 60 + s)) * 1000000000 +
        (frac.take 9).foldl (fun a dg => a * 10 + dg) 0 *
          10 ^ (9 - (frac.take 9).length)
  | .pyDatetime y mo d h mi s us =>
      ((((((y * 13 + mo) * 32 + d) * 24 + h) * 60 + mi) * 60 + s)) * 1000000000 +
        us * 1000
  | .pyDate y mo d => ((((((y * 13 + mo) * 32 + d) * 24) * 60) * 60)) * 1000000000
  | .unixInt t => (t + 62135596800).toNat * 1000000000
  | .unixFloat t ns => (t + 62135596800).toNat * 1000000000 + ns
  | .unsupported => 0

/-- Strict comparison between cells: the natural order inside each comparable
kind, never across kinds, never on complex cells. -/
def cellLt : Cell → Cell → Bool
  | .intv a, .intv b => a < b
  | .floatv a, .floatv b => a < b
  | .strv a, .strv b => lexLt a b
  | .timev a, .timev b => timeKey a < timeKey b
  | _, _ => false

/-- Non-strict comparison between cells (`a <= b` iff `a < b` or `a = b`). -/
def cellLe (a b : Cell) : Bool := cellLt a b || a = b

/-- Bool-valued chain predicate: `r` holds between every two consecutive
entries. -/
def chainB (r : Cell → Cell → Bool) : List Cell → Bool
  | [] => true
  | [_] => true
  | a :: b :: rest => r a b && chainB r (b :: rest)

/-- Embeds `pd.Series.is_monotonic_increasing` (non-strict, consecutive). -/
def is_monotonic_increasing (l : List Cell) : Bool := chainB cellLe l

/-- Embeds `pd.Series.is_unique` (no value occurs twice). -/
def is_unique : List Cell → Bool
  | [] => true
  | a :: rest => !(decide (a ∈ rest)) && is_unique rest

/-- The claim's notion of a strictly increasing column. -/
def strictlyIncreasing (l : List Cell) : Bool := chainB cellLt l

/-- Embeds `FileSimpleCache.leading_independent` (file_simple.py lines
113-115): column 0 is monotonically increasing and duplicate-free.  The
Python `column_data(0)` access is guarded by its only caller, which reaches
it just for channel index 0 of a nonempty column list. -/
def leading_independent (b : Backend) : Bool :=
  let column := b.column_cells 0
  is_monotonic_increasing column && is_unique column

/-! ## Structure building (`FileSimple.fill_structure`) -/

/-- Wire `exd_api.StructureResult.Channel`. -/
structure OdsChannel where
  name : PStr
  id : Nat
  data_type : OdsDataType
  unit_string : PStr
  attributes : Ctx
  deriving DecidableEq, Repr

/-- Wire `exd_api.StructureResult.Group`. -/
structure OdsGroup where
  name : PStr
  id : Nat
  total_number_of_channels : Nat
  number_of_rows : Nat
  attributes : Ctx
  channels : List OdsChannel
  deriving DecidableEq, Repr

/-- Wire `exd_api.StructureResult` (the fields the plugin touches). -/
structure StructureResult where
  attributes : Ctx
  groups : List OdsGroup
  deriving DecidableEq, Repr

/-- Embeds `(channel_units + [""] * number_of_columns)[:number_of_columns]`:
right-pad with empty strings, then truncate, to exactly `n` entries. -/
def pad_to (l : List PStr) (n : Nat) : List PStr :=
  (l ++ List.replicate n []).take n

/-- Four-way zip, the semantics of Python `zip(names, datatypes, units,
descriptions)`: stops at the shortest input. -/
def zip4 {α β γ δ : Type} : List α → List β → List γ → List δ → List (α × β × γ × δ)
  | a :: as, b :: bs, c :: cs, d :: ds => (a, b, c, d) :: zip4 as bs cs ds
  | _, _, _, _ => []

/-- Synthesized name `f"Ch_<index>"` for a column with no name. -/
def chFallbackName (index : Nat) : PStr := "Ch_".toList ++ (Nat.repr index).toList

/-- Embeds one iteration of the channel-construction loop of
`fill_structure` (file_simple.py lines 219-233).  The two in-loop attribute
additions pass an `int` and a non-empty `str`, value kinds on which
`AttribsHelper.add` cannot raise, so the iteration is total. -/
def mkChannel (b : Backend) (index : Nat) (nm : Option PStr)
    (dt : OdsDataType) (unit desc : PStr) : OdsChannel :=
  let ch : OdsChannel :=
    { name := match nm with | some s => s | none => chFallbackName index,
      id := index, data_type := dt, unit_string := unit, attributes := [] }
  let a1 := if 0 = index && leading_independent b then
      (attribsAdd ch.attributes [("independent".toList, .vint 1)]).1
    else ch.attributes
  let a2 := if ¬ desc = [] then
      (attribsAdd a1 [("description".toList, .vstr desc)]).1
    else a1
  { ch with attributes := a2 }

/-- The channel-construction loop of `fill_structure`, `enumerate` index
threaded explicitly. -/
def buildChannels (b : Backend) (index : Nat) :
    List (Option PStr × OdsDataType × PStr × PStr) → List OdsChannel
  | [] => []
  | (nm, dt, unit, desc) :: rest =>
      mkChannel b index nm dt unit desc :: buildChannels b (index + 1) rest

/-- Handle state of a `FileSimple` instance: `self.file` is the cache, or
`None` once closed. -/
structure FileSimple where
  file : Option Backend
  deriving DecidableEq, Repr

/-- Embeds `FileSimple.close` (file_simple.py lines 184-189): release the
cache and null the field; a second call finds `None` and does nothing. -/
def FileSimple.close (fs : FileSimple) : FileSimple :=
  match fs.file with
  | some _ => { file := none }
  | none => fs

/-- Embeds `FileSimple.fill_structure` (file_simple.py lines 191-235).  The
Python code mutates the passed-in `StructureResult`, so the embedding returns
the structure together with an optional error; when a raise aborts the call,
the returned structure carries exactly the mutations performed before the
raise. -/
def fill_structure (fs : FileSimple) (st : StructureResult) :
    StructureResult × Option Err :=
  match fs.file with
  | none => (st, some .invalidHandle)
  | some b =>
    if b.notMyFile then (st, some .notMyFile)
    else
      match attribsAdd st.attributes b.fileAttrs with
      | (attrs1, some e) => ({ st with attributes := attrs1 }, some e)
      | (attrs1, none) =>
        let st1 := { st with attributes := attrs1 }
        let number_of_columns := b.number_of_columns
        let channel_names := b.column_names
        match b.column_datatypes with
        | .error e => (st1, some e)
        | .ok channel_datatypes =>
          let channel_units := pad_to b.columnUnits number_of_columns
          let channel_descriptions := pad_to b.columnDescriptions number_of_columns
          let new_group : OdsGroup :=
            { name := "data".toList, id := 0,
              total_number_of_channels := number_of_columns,
              number_of_rows := b.number_of_rows,
              attributes := [], channels := [] }
          match attribsAdd new_group.attributes b.groupAttrs with
          | (_, some e) => (st1, some e)
          | (ga, none) =>
            let chans := buildChannels b 0
              (zip4 channel_names channel_datatypes channel_units channel_descriptions)
            let g1 := { new_group with attributes := ga, channels := chans }
            ({ st1 with groups := st1.groups ++ [g1] }, none)

/-! ## Value marshaling (`FileSimple.get_values`) -/

/-- Wire `exd_api.ValuesRequest` (`start` and `limit` are unsigned in the
protocol). -/
structure ValuesRequest where
  group_id : Nat
  channel_ids : List Nat
  start : Nat
  limit : Nat
  deriving DecidableEq, Repr

/-- The discriminated union of typed wire arrays the marshaler fills (byte
string, `long_array`, `longlong_array`, `float_array`, `double_array`,
`string_array`). -/
inductive TypedValues where
  | byteArr (vals : List Nat)
  | longArr (vals : List Int)
  | longlongArr (vals : List Int)
  | floatArr (vals : List Nat)
  | doubleArr (vals : List Nat)
  | stringArr (vals : List PStr)
  deriving DecidableEq, Repr

/-- Number of entries in a typed wire array. -/
def TypedValues.size : TypedValues → Nat
  | .byteArr v => v.length
  | .longArr v => v.length
  | .longlongArr v => v.length
  | .floatArr v => v.length
  | .doubleArr v => v.length
  | .stringArr v => v.length

/-- Wire `exd_api.ValuesResult.ChannelValues`; `data_type` models
`values.data_type`. -/
structure ChannelValues where
  id : Nat
  data_type : OdsDataType
  values : TypedValues
  deriving DecidableEq, Repr

/-- Wire `exd_api.ValuesResult`. -/
structure ValuesResult where
  id : Nat
  channels : List ChannelValues
  deriving DecidableEq, Repr

/-- Embeds one iteration of the `get_values` channel loop (file_simple.py
lines 256-304): bound check, dtype lookup, row slice, per-type encoding. -/
def marshal_channel (b : Backend) (start endi : Nat) (channel_index : Nat) :
    Except Err ChannelValues :=
  if b.number_of_columns ≤ channel_index then .error .invalidArgument
  else
    match b.column_datatypes with
    | .error e => .error e
    | .ok dts =>
      let dt := dts.getD channel_index .DT_UNKNOWN
      let channel_slice := ((b.column_cells channel_index).drop start).take (endi - start)
      let tv : Except Err TypedValues :=
        match dt with
        | .DT_BYTE => .ok (.byteArr (channel_slice.map (fun c => (c.intVal % 256).toNat)))
        | .DT_SHORT => .ok (.longArr (channel_slice.map Cell.intVal))
        | .DT_LONG => .ok (.longArr (channel_slice.map Cell.intVal))
        | .DT_LONGLONG => .ok (.longlongArr (channel_slice.map Cell.intVal))
        | .DT_FLOAT => .ok (.floatArr (channel_slice.map Cell.bitsVal))
        | .DT_DOUBLE => .ok (.doubleArr (channel_slice.map Cell.bitsVal))
        | .DT_DATE =>
            match mapME (fun c => to_asam_ods_time c.timeVal) channel_slice with
            | .error e => .error e
            | .ok strs => .ok (.stringArr strs)
        | .DT_STRING => .ok (.stringArr (channel_slice.map Cell.strVal))
        | .DT_COMPLEX => .ok (.floatArr (channel_slice.flatMap (fun c => [c.reVal, c.imVal])))
        | .DT_DCOMPLEX => .ok (.doubleArr (channel_slice.flatMap (fun c => [c.reVal, c.imVal])))
        | _ => .error .unsupportedColumnType
      match tv with
      | .error e => .error e
      | .ok tvv => .ok { id := channel_index, data_type := dt, values := tvv }

/-- Embeds `FileSimple.get_values` (file_simple.py lines 237-306): handle
check, group check, start bound, end clamp, then the channel loop in request
order. -/
def get_values (fs : FileSimple) (request : ValuesRequest) :
    Except Err ValuesResult :=
  match fs.file with
  | none => .error .invalidHandle
  | some b =>
    if ¬ request.group_id = 0 then .error .invalidArgument
    else
      let nr_of_rows := b.number_of_rows
      if nr_of_rows ≤ request.start then .error .invalidArgument
      else
        let end_index :=
          if nr_of_rows ≤ request.start + request.limit then nr_of_rows
          else request.start + request.limit
        match mapME (marshal_channel b request.start end_index)
            request.channel_ids with
        | .error e => .error e
        | .ok chans => .ok { id := request.group_id, channels := chans }

/-! ## Order lemmas for the independent-axis predicate -/

theorem lexLt_irrefl (s : PStr) : lexLt s s = false := by
  induction s with
  | nil => rfl
  | cons a as ih => simp [lexLt, ih]

theorem lexLt_trans : ∀ a b c : PStr, lexLt a b = true → lexLt b c = true →
    lexLt a c = true := by
  intro a
  induction a with
  | nil =>
    intro b c hab hbc
    cases b with
    | nil => simp [lexLt] at hab
    | cons y bs =>
      cases c with
      | nil => simp [lexLt] at hbc
      | cons z cs => simp [lexLt]
  | cons x as ih =>
    intro b c hab hbc
    cases b with
    | nil => simp [lexLt] at hab
    | cons y bs =>
      cases c with
      | nil => simp [lexLt] at hbc
      | cons z cs =>
        simp only [lexLt] at hab hbc ⊢
        by_cases hxy : x < y
        · by_cases hyz : y < z
          · simp [lt_trans hxy hyz]
          · simp [hyz] at hbc
            rcases hbc with ⟨hyz', _⟩
            subst hyz'
            simp [hxy]
        · simp [hxy] at hab
          rcases hab with ⟨hxy', hab⟩
          subst hxy'
          by_cases hyz : x < z
          · simp [hyz]
          · simp [hyz] at hbc
            rcases hbc with ⟨hyz', hbc⟩
            subst hyz'
            simp [hyz, ih bs cs hab hbc]

theorem cellLt_irrefl (a : Cell) : cellLt a a = false := by
  cases a <;> simp [cellLt, lexLt_irrefl]

theorem cellLt_trans {a b c : Cell} (hab : cellLt a b = true)
    (hbc : cellLt b c = true) : cellLt a c = true := by
  cases a <;> cases b <;> simp [cellLt] at hab <;>
    cases c <;> simp [cellLt] at hbc ⊢
  · omega
  · omega
  · exact lexLt_trans _ _ _ hab hbc
  · omega

theorem chainB_tail {r : Cell → Cell → Bool} {a : Cell} {l : List Cell}
    (h : chainB r (a :: l) = true) : chainB r l = true := by
  cases l with
  | nil => rfl
  | cons b rest =>
    have h' : r a b = true ∧ chainB r (b :: rest) = true := by
      simpa [chainB] using h
    exact h'.2

theorem chainB_lt_head {a : Cell} {l : List Cell}
    (h : chainB cellLt (a :: l) = true) : ∀ x ∈ l, cellLt a x = true := by
  induction l generalizing a with
  | nil => intro x hx; simp at hx
  | cons b rest ih =>
    intro x hx
    have h' := (by simpa [chainB] using h : cellLt a b = true ∧
      chainB cellLt (b :: rest) = true)
    rcases List.mem_cons.mp hx with hxb | hxr
    · subst hxb; exact h'.1
    · exact cellLt_trans h'.1 (ih h'.2 x hxr)

theorem chainB_lt_unique {l : List Cell}
    (h : chainB cellLt l = true) : is_unique l = true := by
  induction l with
  | nil => rfl
  | cons a rest ih =>
    have hnot : a ∉ rest := by
      intro hmem
      have := chainB_lt_head h a hmem
      simp [cellLt_irrefl] at this
    simp [is_unique, hnot, ih (chainB_tail h)]

theorem chainB_le_of_lt {l : List Cell}
    (h : chainB cellLt l = true) : chainB cellLe l = true := by
  induction l with
  | nil => rfl
  | cons a rest ih =>
    cases rest with
    | nil => rfl
    | cons b rest' =>
      have h' := (by simpa [chainB] using h : cellLt a b = true ∧
        chainB cellLt (b :: rest') = true)
      simp [chainB, cellLe, h'.1, ih h'.2]

theorem chainB_lt_of_le_unique {l : List Cell}
    (hle : chainB cellLe l = true) (hu : is_unique l = true) :
    chainB cellLt l = true := by
  induction l with
  | nil => rfl
  | cons a rest ih =>
    cases rest with
    | nil => rfl
    | cons b rest' =>
      have h' := (by simpa [chainB] using hle : cellLe a b = true ∧
        chainB cellLe (b :: rest') = true)
      have hu' := (by simpa [is_unique] using hu : (a ∉ b :: rest') ∧
        is_unique (b :: rest') = true)
      have hne : ¬ a = b := fun hab => hu'.1 (hab ▸ List.mem_cons_self a rest')
      have hlt : cellLt a b = true := by
        have hab := h'.1
        simp only [cellLe, Bool.or_eq_true, decide_eq_true_eq] at hab
        rcases hab with h1 | h1
        · exact h1
        · exact absurd h1 hne
      simp [chainB, hlt, ih h'.2 hu'.2]

/-- The monotone-and-unique test is exactly strict increase. -/
theorem monotonic_unique_iff_strict (l : List Cell) :
    (is_monotonic_increasing l && is_unique l) = true ↔
      strictlyIncreasing l = true := by
  constructor
  · intro h
    have h' := Bool.and_eq_true_iff.mp h
    exact chainB_lt_of_le_unique h'.1 h'.2
  · intro h
    exact Bool.and_eq_true_iff.mpr ⟨chainB_le_of_lt h, chainB_lt_unique h⟩

/-! ## Structural lemmas about the embedded operations -/

theorem mapME_ok {α β : Type} {f : α → Except Err β} :
    ∀ {l : List α} {ys : List β}, mapME f l = .ok ys →
      ys.length = l.length ∧
        ∀ p x, l.get? p = some x → ∃ y, ys.get? p = some y ∧ f x = .ok y := by
  intro l
  induction l with
  | nil =>
    intro ys h
    cases h
    exact ⟨rfl, by intro p x hx; simp at hx⟩
  | cons a rest ih =>
    intro ys h
    simp only [mapME] at h
    cases hfa : f a with
    | error e => rw [hfa] at h; simp at h
    | ok y =>
      rw [hfa] at h
      cases hrest : mapME f rest with
      | error e => rw [hrest] at h; simp at h
      | ok ys' =>
        rw [hrest] at h
        simp only [Except.ok.injEq] at h
        subst h
        rcases ih hrest with ⟨hlen, hget⟩
        refine ⟨by simp [hlen], ?_⟩
        intro p x hx
        cases p with
        | zero =>
          simp at hx
          subst hx
          exact ⟨y, rfl, hfa⟩
        | succ q => exact hget q x (by simpa using hx)

theorem mapME_ok_of_forall {α β : Type} {f : α → Except Err β} :
    ∀ {l : List α}, (∀ x ∈ l, ∃ y, f x = .ok y) →
      ∃ ys, mapME f l = .ok ys := by
  intro l
  induction l with
  | nil => intro _; exact ⟨[], rfl⟩
  | cons a rest ih =>
    intro h
    rcases h a (List.mem_cons_self a rest) with ⟨y, hy⟩
    rcases ih (fun x hx => h x (List.mem_cons_of_mem a hx)) with ⟨ys, hys⟩
    exact ⟨y :: ys, by simp [mapME, hy, hys]⟩

theorem pad_to_length (l : List PStr) (n : Nat) : (pad_to l n).length = n := by
  simp [pad_to]

theorem zip4_get? {α β γ δ : Type} :
    ∀ (as : List α) (bs : List β) (cs : List γ) (ds : List δ) (p : Nat)
      (a : α) (b : β) (c : γ) (d : δ),
      as.get? p = some a → bs.get? p = some b → cs.get? p = some c →
      ds.get? p = some d → (zip4 as bs cs ds).get? p = some (a, b, c, d) := by
  intro as
  induction as with
  | nil => intro bs cs ds p a b c d ha; simp at ha
  | cons a0 as' ih =>
    intro bs cs ds p a b c d ha hb hc hd
    cases bs with
    | nil => simp at hb
    | cons b0 bs' =>
      cases cs with
      | nil => simp at hc
      | cons c0 cs' =>
        cases ds with
        | nil => simp at hd
        | cons d0 ds' =>
          cases p with
          | zero =>
            simp at ha hb hc hd
            subst ha; subst hb; subst hc; subst hd
            rfl
          | succ q =>
            simp only [List.get?] at ha hb hc hd
            simpa [zip4] using ih bs' cs' ds' q a b c d ha hb hc hd

theorem zip4_length {α β γ δ : Type} :
    ∀ (as : List α) (bs : List β) (cs : List γ) (ds : List δ),
      (zip4 as bs cs ds).length =
        min (min as.length bs.length) (min cs.length ds.length) := by
  intro as
  induction as with
  | nil => intro bs cs ds; cases bs <;> cases cs <;> cases ds <;> simp [zip4]
  | cons a0 as' ih =>
    intro bs cs ds
    cases bs with
    | nil => simp [zip4]
    | cons b0 bs' =>
      cases cs with
      | nil => simp [zip4]
      | cons c0 cs' =>
        cases ds with
        | nil => simp [zip4]
        | cons d0 ds' =>
          simp only [zip4, List.length_cons, ih bs' cs' ds']
          omega

theorem buildChannels_get? (b : Backend) :
    ∀ (l : List (Option PStr × OdsDataType × PStr × PStr)) (index p : Nat),
      (buildChannels b index l).get? p =
        (l.get? p).map (fun e => mkChannel b (index + p) e.1 e.2.1 e.2.2.1 e.2.2.2) := by
  intro l
  induction l with
  | nil => intro index p; simp [buildChannels]
  | cons e rest ih =>
    intro index p
    cases p with
    | zero => cases e with | mk nm e2 => cases e2 with | mk dt e3 =>
        cases e3 with | mk u dsc => simp [buildChannels]
    | succ q =>
      cases e with | mk nm e2 => cases e2 with | mk dt e3 =>
      cases e3 with | mk u dsc =>
      simp only [buildChannels, List.get?]
      rw [ih (index + 1) q]
      have hidx : index + 1 + q = index + (q + 1) := by omega
      rw [hidx]

theorem buildChannels_length (b : Backend) :
    ∀ (l : List (Option PStr × OdsDataType × PStr × PStr)) (index : Nat),
      (buildChannels b index l).length = l.length := by
  intro l
  induction l with
  | nil => intro index; rfl
  | cons e rest ih =>
    intro index
    cases e with | mk nm e2 => cases e2 with | mk dt e3 =>
    cases e3 with | mk u dsc => simp [buildChannels, ih]

theorem mkChannel_id (b : Backend) (index : Nat) (nm : Option PStr)
    (dt : OdsDataType) (u desc : PStr) :
    (mkChannel b index nm dt u desc).id = index := by
  simp [mkChannel]

theorem mkChannel_name (b : Backend) (index : Nat) (nm : Option PStr)
    (dt : OdsDataType) (u desc : PStr) :
    (mkChannel b index nm dt u desc).name =
      (match nm with | some s => s | none => chFallbackName index) := by
  simp [mkChannel]

theorem mkChannel_ctxFind_indep (b : Backend) (index : Nat) (nm : Option PStr)
    (dt : OdsDataType) (u desc : PStr) :
    ctxFind (mkChannel b index nm dt u desc).attributes "independent".toList =
      (if 0 = index ∧ leading_independent b = true
       then some ⟨[], [1], [], []⟩ else none) := by
  by_cases hi : 0 = index <;> by_cases hl : leading_independent b = true <;>
    by_cases hd : desc = [] <;>
      simp [mkChannel, attribsAdd, ctxUpd, ctxFind, emptyVar, hi, hl, hd]

/-- Success shape of `fill_structure`: when the call returns without error,
the result is the input structure with the file attributes merged and exactly
one group appended, built from the zipped column metadata. -/
theorem fill_structure_ok {b : Backend} {st st' : StructureResult}
    (h : fill_structure ⟨some b⟩ st = (st', none)) :
    ∃ dts ga,
      b.column_datatypes = .ok dts ∧
      st'.groups = st.groups ++
        [{ name := "data".toList, id := 0,
           total_number_of_channels := b.number_of_columns,
           number_of_rows := b.number_of_rows,
           attributes := ga,
           channels := buildChannels b 0 (zip4 b.column_names dts
             (pad_to b.columnUnits b.number_of_columns)
             (pad_to b.columnDescriptions b.number_of_columns)) }] := by
  simp only [fill_structure] at h
  cases hnmf : b.notMyFile with
  | true => rw [hnmf] at h; simp at h
  | false =>
    rw [hnmf] at h
    simp only [Bool.false_eq_true, if_false] at h
    cases hfa : attribsAdd st.attributes b.fileAttrs with
    | mk a1 e1 =>
      rw [hfa] at h
      cases e1 with
      | some e => simp at h
      | none =>
        cases hdt : b.column_datatypes with
        | error e => rw [hdt] at h; simp at h
        | ok dts =>
          rw [hdt] at h
          cases hga : attribsAdd ([] : Ctx) b.groupAttrs with
          | mk ga e2 =>
            rw [hga] at h
            cases e2 with
            | some e => simp at h
            | none =>
              simp only [Prod.mk.injEq] at h
              refine ⟨dts, ga, rfl, ?_⟩
              rw [← h.1]

/-! ## Claims C3, C5, C10 -/

/-- C3: the inferred wire data type follows the exact promotion table
(int8 to SHORT, uint8 to BYTE, int16 to SHORT, uint16 to LONG, int32 to LONG,
uint32 to LONGLONG, int64 to LONGLONG, uint64 to DOUBLE, other integer widths
to LONG); string-like, complex, date/time and floating-point dtypes are
matched before the integer rule, in that order; an unrecognized dtype yields
the unsupported-column-type error. -/
theorem claim_C3 :
    (get_datatype .int8 = .ok .DT_SHORT ∧
     get_datatype .uint8 = .ok .DT_BYTE ∧
     get_datatype .int16 = .ok .DT_SHORT ∧
     get_datatype .uint16 = .ok .DT_LONG ∧
     get_datatype .int32 = .ok .DT_LONG ∧
     get_datatype .uint32 = .ok .DT_LONGLONG ∧
     get_datatype .int64 = .ok .DT_LONGLONG ∧
     get_datatype .uint64 = .ok .DT_DOUBLE ∧
     get_datatype .intOther = .ok .DT_LONG) ∧
    (get_datatype .stringDt = .ok .DT_STRING ∧
     get_datatype .complex64 = .ok .DT_COMPLEX ∧
     get_datatype .complex128 = .ok .DT_DCOMPLEX ∧
     get_datatype .datetime64 = .ok .DT_DATE ∧
     get_datatype .float32 = .ok .DT_FLOAT ∧
     get_datatype .float64 = .ok .DT_DOUBLE) ∧
    (∀ dt : NpDtype, dt.is_string_dtype = true →
        get_datatype dt = .ok .DT_STRING) ∧
    (∀ dt : NpDtype, dt.is_string_dtype = false → dt.is_complex_dtype = true →
        get_datatype dt = .ok .DT_COMPLEX ∨ get_datatype dt = .ok .DT_DCOMPLEX) ∧
    (∀ dt : NpDtype, dt.is_string_dtype = false → dt.is_complex_dtype = false →
        dt.is_datetime64_any_dtype = true → get_datatype dt = .ok .DT_DATE) ∧
    (∀ dt : NpDtype, dt.is_string_dtype = false → dt.is_complex_dtype = false →
        dt.is_datetime64_any_dtype = false → dt.is_float_dtype = true →
        get_datatype dt = .ok .DT_FLOAT ∨ get_datatype dt = .ok .DT_DOUBLE) ∧
    (∀ dt : NpDtype, dt.is_string_dtype = false → dt.is_complex_dtype = false →
        dt.is_datetime64_any_dtype = false → dt.is_float_dtype = false →
        dt.is_integer_dtype = false →
        get_datatype dt = .error .unsupportedColumnType) := by
  refine ⟨⟨rfl, rfl, rfl, rfl, rfl, rfl, rfl, rfl, rfl⟩,
    ⟨rfl, rfl, rfl, rfl, rfl, rfl⟩, ?_, ?_, ?_, ?_, ?_⟩ <;>
    (intro dt
     cases dt <;>
       simp [get_datatype, NpDtype.is_string_dtype, NpDtype.is_complex_dtype,
         NpDtype.is_datetime64_any_dtype, NpDtype.is_float_dtype,
         NpDtype.is_integer_dtype])

/-- C5: closing a handle twice is a no-op, and every structure or value query
issued after close fails with the invalid-handle error. -/
theorem claim_C5 (fs : FileSimple) (st : StructureResult) (req : ValuesRequest) :
    FileSimple.close (FileSimple.close fs) = FileSimple.close fs ∧
    fill_structure (FileSimple.close fs) st = (st, some .invalidHandle) ∧
    get_values (FileSimple.close fs) req = .error .invalidHandle := by
  cases fs with
  | mk file => cases file <;> simp [FileSimple.close, fill_structure, get_values]

/-- C10: when the backend reports not-my-file, `fill_structure` raises the
not-my-file signal and the passed-in structure is left completely unchanged. -/
theorem claim_C10 (b : Backend) (st : StructureResult)
    (h : b.notMyFile = true) :
    fill_structure ⟨some b⟩ st = (st, some .notMyFile) := by
  simp [fill_structure, h]

/-- Witness for C10 at a concrete one-column backend whose `not_my_file()` is
true. -/
theorem claim_C10_witness :
    fill_structure
      ⟨some { notMyFile := true,
              pdata := { nrows := 1,
                         cols := [{ name := none, dtype := .int64,
                                    cells := [.intv 7] }] },
              fileAttrs := [], groupAttrs := [],
              columnNamesOverride := none,
              columnUnits := [], columnDescriptions := [] }⟩
      { attributes := [], groups := [] } =
      ({ attributes := [], groups := [] }, some .notMyFile) :=
  claim_C10 _ _ rfl

/-! ## Claims C4 and C6 -/

/-- C4: channel 0 of the built structure carries `independent = 1` iff the
values of column 0 are strictly increasing (monotonically increasing with no
duplicates); no other channel ever receives the `independent` attribute. -/
theorem claim_C4 (b : Backend) (st st' : StructureResult)
    (h : fill_structure ⟨some b⟩ st = (st', none)) :
    ∃ g, st'.groups = st.groups ++ [g] ∧
      (∀ ch ∈ g.channels, ch.id = 0 →
        ((ctxFind ch.attributes "independent".toList).map (·.long_array) =
            some [1] ↔
          strictlyIncreasing (b.column_cells 0) = true)) ∧
      (∀ ch ∈ g.channels, ¬ ch.id = 0 →
        ctxFind ch.attributes "independent".toList = none) := by
  rcases fill_structure_ok h with ⟨dts, ga, _, hgroups⟩
  refine ⟨_, hgroups, ?_, ?_⟩ <;> intro ch hch hid <;>
    simp only [] at hch <;>
    rcases List.mem_iff_get?.mp hch with ⟨p, hp⟩ <;>
    rw [buildChannels_get?] at hp <;>
    rcases hzp : (zip4 b.column_names dts
        (pad_to b.columnUnits b.number_of_columns)
        (pad_to b.columnDescriptions b.number_of_columns)).get? p with _ | e <;>
    rw [hzp] at hp <;> simp at hp
  · -- channel with id 0: it is the channel built at index 0
    subst hp
    rw [mkChannel_id] at hid
    have hp0 : p = 0 := by omega
    subst hp0
    rw [mkChannel_ctxFind_indep]
    cases hli : leading_independent b with
    | true =>
      have hstrict : strictlyIncreasing (b.column_cells 0) = true := by
        have := hli
        unfold leading_independent at this
        exact (monotonic_unique_iff_strict _).mp this
      simp [hstrict]
    | false =>
      have hstrict : ¬ strictlyIncreasing (b.column_cells 0) = true := by
        intro hs
        have := (monotonic_unique_iff_strict (b.column_cells 0)).mpr hs
        unfold leading_independent at hli
        simp only [] at hli
        rw [this] at hli
        cases hli
      simp [hstrict]
  · -- channels with id other than 0 never get the attribute
    subst hp
    rw [mkChannel_id] at hid
    rw [mkChannel_ctxFind_indep]
    have hne : ¬ (0 = p) := by omega
    simp [hne]

/-- Backend used by the C4 witness: its single column holds `[1, 2, 3]`. -/
def c4backend : Backend :=
  { notMyFile := false,
    pdata := { nrows := 3,
               cols := [{ name := some "x".toList, dtype := .int64,
                          cells := [.intv 1, .intv 2, .intv 3] }] },
    fileAttrs := [], groupAttrs := [],
    columnNamesOverride := none,
    columnUnits := [], columnDescriptions := [] }

/-- Witness for C4: the concrete backend `c4backend` (strictly increasing
column `[1,2,3]`) satisfies the hypothesis, and the theorem applies. -/
theorem claim_C4_witness :
    ∃ g, (fill_structure ⟨some c4backend⟩ ⟨[], []⟩).1.groups =
        (⟨[], []⟩ : StructureResult).groups ++ [g] ∧
      (∀ ch ∈ g.channels, ch.id = 0 →
        ((ctxFind ch.attributes "independent".toList).map (·.long_array) =
            some [1] ↔
          strictlyIncreasing (c4backend.column_cells 0) = true)) ∧
      (∀ ch ∈ g.channels, ¬ ch.id = 0 →
        ctxFind ch.attributes "independent".toList = none) :=
  claim_C4 c4backend ⟨[], []⟩ _ rfl

/-- C6 (amended): provided the backend's column-name list has at least
`column_count` entries - automatic when the `column_names()` override is
absent - the built structure's group contains exactly `column_count` channels
with dense ids `0..N-1` in backend column order, a channel whose column name
is absent is named `Ch_<index>`, and `total_number_of_channels` equals
`column_count`. -/
theorem claim_C6 (b : Backend) (st st' : StructureResult)
    (h : fill_structure ⟨some b⟩ st = (st', none))
    (hnames : b.number_of_columns ≤ b.column_names.length) :
    ∃ g, st'.groups = st.groups ++ [g] ∧
      g.total_number_of_channels = b.number_of_columns ∧
      g.channels.length = b.number_of_columns ∧
      (∀ p, p < b.number_of_columns →
        ∃ ch, g.channels.get? p = some ch ∧ ch.id = p ∧
          (∀ nm, b.column_names.get? p = some (some nm) → ch.name = nm) ∧
          (b.column_names.get? p = some none → ch.name = chFallbackName p)) := by
  rcases fill_structure_ok h with ⟨dts, ga, hdt, hgroups⟩
  have hdts_len : dts.length = b.number_of_columns := (mapME_ok hdt).1
  have hulen := pad_to_length b.columnUnits b.number_of_columns
  have hdlen := pad_to_length b.columnDescriptions b.number_of_columns
  have hziplen : (zip4 b.column_names dts
      (pad_to b.columnUnits b.number_of_columns)
      (pad_to b.columnDescriptions b.number_of_columns)).length =
      b.number_of_columns := by
    rw [zip4_length, hdts_len, hulen, hdlen]
    omega
  refine ⟨_, hgroups, rfl, ?_, ?_⟩
  · simp only []
    rw [buildChannels_length, hziplen]
  · intro p hp
    simp only []
    rcases hnm : b.column_names.get? p with _ | nmo
    · rw [List.get?_eq_get (show p < b.column_names.length by omega)] at hnm
      simp at hnm
    rcases hdp : dts.get? p with _ | dt
    · rw [List.get?_eq_get (show p < dts.length by omega)] at hdp
      simp at hdp
    rcases hup : (pad_to b.columnUnits b.number_of_columns).get? p with _ | u
    · rw [List.get?_eq_get
        (show p < (pad_to b.columnUnits b.number_of_columns).length by omega)] at hup
      simp at hup
    rcases hdsp : (pad_to b.columnDescriptions b.number_of_columns).get? p with _ | dsc
    · rw [List.get?_eq_get
        (show p < (pad_to b.columnDescriptions b.number_of_columns).length by omega)] at hdsp
      simp at hdsp
    rw [buildChannels_get?, zip4_get? _ _ _ _ _ _ _ _ _ hnm hdp hup hdsp]
    refine ⟨_, rfl, ?_, ?_, ?_⟩
    · rw [mkChannel_id]; omega
    · intro nm hnm'
      injection hnm' with h2
      subst h2
      simp [mkChannel_name]
    · intro hnm'
      injection hnm' with h2
      subst h2
      simp [mkChannel_name]

/-- Backend used by the C6 witness: two columns, the second unnamed. -/
def c6backend : Backend :=
  { notMyFile := false,
    pdata := { nrows := 2,
               cols := [{ name := some "a".toList, dtype := .float64,
                          cells := [.floatv 5, .floatv 6] },
                        { name := none, dtype := .int32,
                          cells := [.intv 1, .intv 2] }] },
    fileAttrs := [], groupAttrs := [],
    columnNamesOverride := none,
    columnUnits := ["V".toList], columnDescriptions := [] }

/-- Witness for C6 at `c6backend`, hypotheses discharged by computation. -/
theorem claim_C6_witness :
    ∃ g, (fill_structure ⟨some c6backend⟩ ⟨[], []⟩).1.groups =
        (⟨[], []⟩ : StructureResult).groups ++ [g] ∧
      g.total_number_of_channels = c6backend.number_of_columns ∧
      g.channels.length = c6backend.number_of_columns ∧
      (∀ p, p < c6backend.number_of_columns →
        ∃ ch, g.channels.get? p = some ch ∧ ch.id = p ∧
          (∀ nm, c6backend.column_names.get? p = some (some nm) → ch.name = nm) ∧
          (c6backend.column_names.get? p = some none →
            ch.name = chFallbackName p)) :=
  claim_C6 c6backend ⟨[], []⟩ _ rfl (by decide)

/-- Backend refuting C6 as literally stated: its `column_names()` override
returns an empty list although the data frame has one column, so the Python
`zip` truncates and the built group carries no channels at all while
`total_number_of_channels` is 1. -/
def c6cexBackend : Backend :=
  { notMyFile := false,
    pdata := { nrows := 0,
               cols := [{ name := some "a".toList, dtype := .int64,
                          cells := [] }] },
    fileAttrs := [], groupAttrs := [],
    columnNamesOverride := some [],
    columnUnits := [], columnDescriptions := [] }

/-- Counterexample to C6 as stated: `fill_structure` succeeds on
`c6cexBackend`, whose column count is 1, yet the built group has zero
channels (so the structure does not contain `column_count` channels). -/
theorem claim_C6_counterexample :
    (fill_structure ⟨some c6cexBackend⟩ ⟨[], []⟩).2 = none ∧
    c6cexBackend.number_of_columns = 1 ∧
    ((fill_structure ⟨some c6cexBackend⟩ ⟨[], []⟩).1.groups.map
      (fun g => (g.total_number_of_channels, g.channels.length))) = [(1, 0)] := by
  refine ⟨rfl, rfl, rfl⟩

/-! ## Claims C1 and C2 -/

theorem get_datatype_ne_unknown {d : NpDtype} {dt : OdsDataType}
    (h : get_datatype d = .ok dt) : ¬ dt = .DT_UNKNOWN := by
  cases d <;>
    simp [get_datatype, NpDtype.is_string_dtype, NpDtype.is_complex_dtype,
      NpDtype.is_datetime64_any_dtype, NpDtype.is_float_dtype,
      NpDtype.is_integer_dtype] at h <;>
    subst h <;> simp

theorem get_datatype_date {d : NpDtype}
    (h : get_datatype d = .ok .DT_DATE) : d = .datetime64 := by
  cases d <;>
    simp [get_datatype, NpDtype.is_string_dtype, NpDtype.is_complex_dtype,
      NpDtype.is_datetime64_any_dtype, NpDtype.is_float_dtype,
      NpDtype.is_integer_dtype] at h <;>
    rfl

theorem flatMap_pair_length (f g : Cell → Nat) :
    ∀ l : List Cell, (l.flatMap (fun c => [f c, g c])).length = 2 * l.length := by
  intro l
  induction l with
  | nil => rfl
  | cons c rest ih => simp [List.flatMap_cons, ih]; omega

theorem flatMap_pair_get?_even (f g : Cell → Nat) :
    ∀ (l : List Cell) (k : Nat),
      (l.flatMap (fun c => [f c, g c])).get? (2 * k) = (l.get? k).map f := by
  intro l
  induction l with
  | nil => intro k; simp
  | cons c rest ih =>
    intro k
    cases k with
    | zero => simp [List.flatMap_cons]
    | succ q =>
      have h2 : 2 * (q + 1) = 2 * q + 1 + 1 := by omega
      simp only [List.flatMap_cons, h2, List.cons_append, List.get?]
      simpa using ih q

theorem flatMap_pair_get?_odd (f g : Cell → Nat) :
    ∀ (l : List Cell) (k : Nat),
      (l.flatMap (fun c => [f c, g c])).get? (2 * k + 1) = (l.get? k).map g := by
  intro l
  induction l with
  | nil => intro k; simp
  | cons c rest ih =>
    intro k
    cases k with
    | zero => simp [List.flatMap_cons]
    | succ q =>
      have h2 : 2 * (q + 1) + 1 = 2 * q + 1 + 1 + 1 := by omega
      simp only [List.flatMap_cons, h2, List.cons_append, List.get?]
      simpa using ih q

/-- The default column used to totalize `getD` accesses. -/
def defaultCol : Column := ⟨none, .unknownDt, []⟩

theorem column_cells_eq {b : Backend} {i : Nat} {c : Column}
    (hc : b.pdata.cols.get? i = some c) : b.column_cells i = c.cells := by
  rw [List.get?_eq_getElem?] at hc
  simp [Backend.column_cells, List.getD, hc]

/-- Full behaviour of one `get_values` loop iteration on a valid channel
index: it succeeds, returns the channel id and inferred data type, and the
values array carries one entry per sliced row - two for a complex channel. -/
theorem marshal_channel_ok {b : Backend} {dts : List OdsDataType}
    (hdt : b.column_datatypes = .ok dts) (start endi i : Nat)
    (hi : i < b.number_of_columns)
    (hwf : ∀ c ∈ b.pdata.cols, ∀ x ∈ c.cells, cellMatches c.dtype x = true) :
    ∃ cv, marshal_channel b start endi i = .ok cv ∧ cv.id = i ∧
      cv.data_type = dts.getD i .DT_UNKNOWN ∧
      (((cv.data_type = .DT_COMPLEX ∨ cv.data_type = .DT_DCOMPLEX) →
        cv.values.size =
          2 * (((b.column_cells i).drop start).take (endi - start)).length) ∧
       (¬ (cv.data_type = .DT_COMPLEX ∨ cv.data_type = .DT_DCOMPLEX) →
        cv.values.size =
          (((b.column_cells i).drop start).take (endi - start)).length)) := by
  have hcols : i < b.pdata.cols.length := hi
  obtain ⟨c, hcget⟩ : ∃ c, b.pdata.cols.get? i = some c :=
    ⟨_, List.get?_eq_get hcols⟩
  rcases (mapME_ok hdt).2 i _ hcget with ⟨dt, hdget, hgd⟩
  have hgetD : dts.getD i .DT_UNKNOWN = dt := by
    rw [List.get?_eq_getElem?] at hdget
    simp [List.getD, hdget]
  have hcells : b.column_cells i = c.cells := column_cells_eq hcget
  have hslice :
      ∀ x ∈ ((b.column_cells i).drop start).take (endi - start),
        cellMatches c.dtype x = true := by
    intro x hx
    have hx' : x ∈ b.column_cells i :=
      List.mem_of_mem_drop (List.mem_of_mem_take hx)
    rw [hcells] at hx'
    exact hwf c (List.get?_mem hcget) x hx'
  simp only [marshal_channel, hdt]
  rw [if_neg (by omega)]
  rw [hgetD]
  have hne := get_datatype_ne_unknown hgd
  cases dt with
  | DT_BYTE => exact ⟨_, rfl, rfl, rfl, by simp [TypedValues.size]⟩
  | DT_SHORT => exact ⟨_, rfl, rfl, rfl, by simp [TypedValues.size]⟩
  | DT_LONG => exact ⟨_, rfl, rfl, rfl, by simp [TypedValues.size]⟩
  | DT_LONGLONG => exact ⟨_, rfl, rfl, rfl, by simp [TypedValues.size]⟩
  | DT_FLOAT => exact ⟨_, rfl, rfl, rfl, by simp [TypedValues.size]⟩
  | DT_DOUBLE => exact ⟨_, rfl, rfl, rfl, by simp [TypedValues.size]⟩
  | DT_STRING => exact ⟨_, rfl, rfl, rfl, by simp [TypedValues.size]⟩
  | DT_DATE =>
    have hfmt : ∀ x ∈ ((b.column_cells i).drop start).take (endi - start),
        ∃ y, to_asam_ods_time x.timeVal = .ok y := by
      intro x hx
      have hmatch := hslice x hx
      have hdty : c.dtype = .datetime64 := get_datatype_date hgd
      rw [hdty] at hmatch
      cases x with
      | timev t =>
        cases t with
        | np64 y mo d h mi s frac =>
          simp only [cellMatches, decide_eq_true_eq] at hmatch
          refine ⟨fmtDateTime y mo d h mi s ++ rstrip0 (fracNine frac), ?_⟩
          simp only [Cell.timeVal, to_asam_ods_time]
          rw [if_neg (by omega)]
        | pyDatetime y mo d h mi s us => simp [cellMatches] at hmatch
        | pyDate y mo d => simp [cellMatches] at hmatch
        | unixInt t => simp [cellMatches] at hmatch
        | unixFloat t ns => simp [cellMatches] at hmatch
        | unsupported => simp [cellMatches] at hmatch
      | intv v => simp [cellMatches] at hmatch
      | floatv bits => simp [cellMatches] at hmatch
      | strv s => simp [cellMatches] at hmatch
      | complexv re im => simp [cellMatches] at hmatch
    rcases mapME_ok_of_forall hfmt with ⟨strs, hstrs⟩
    rw [hstrs]
    refine ⟨_, rfl, rfl, rfl, ?_⟩
    constructor
    · intro hc2; simp at hc2
    · intro _
      simp [TypedValues.size, (mapME_ok hstrs).1]
  | DT_COMPLEX =>
    refine ⟨_, rfl, rfl, rfl, ?_⟩
    constructor
    · intro _
      simp only [TypedValues.size]
      rw [flatMap_pair_length]
    · intro hc2; simp at hc2
  | DT_DCOMPLEX =>
    refine ⟨_, rfl, rfl, rfl, ?_⟩
    constructor
    · intro _
      simp only [TypedValues.size]
      rw [flatMap_pair_length]
    · intro hc2; simp at hc2
  | DT_UNKNOWN => exact absurd rfl hne

/-- C1: on a valid `GetValues` request for group 0 every returned non-complex
channel carries exactly `min(limit, row_count - start)` values, the returned
channels keep the requested channel order, and a request with
`start >= row_count` is rejected with the invalid-argument error. -/
theorem claim_C1 (b : Backend) (req : ValuesRequest) (dts : List OdsDataType)
    (hg : req.group_id = 0)
    (hdt : b.column_datatypes = .ok dts)
    (hch : ∀ i ∈ req.channel_ids, i < b.number_of_columns)
    (hrows : ∀ c ∈ b.pdata.cols, c.cells.length = b.pdata.nrows)
    (hwf : ∀ c ∈ b.pdata.cols, ∀ x ∈ c.cells, cellMatches c.dtype x = true) :
    (req.start < b.number_of_rows →
      ∃ res, get_values ⟨some b⟩ req = .ok res ∧
        res.channels.map (·.id) = req.channel_ids ∧
        (∀ cv ∈ res.channels,
          ¬ cv.data_type = .DT_COMPLEX → ¬ cv.data_type = .DT_DCOMPLEX →
          cv.values.size = min req.limit (b.number_of_rows - req.start))) ∧
    (b.number_of_rows ≤ req.start →
      get_values ⟨some b⟩ req = .error .invalidArgument) := by
  constructor
  · intro hstart
    set endi := if b.number_of_rows ≤ req.start + req.limit
        then b.number_of_rows else req.start + req.limit with hendi
    have hmok : ∀ i ∈ req.channel_ids,
        ∃ cv, marshal_channel b req.start endi i = .ok cv := by
      intro i hi
      rcases marshal_channel_ok hdt req.start endi i (hch i hi) hwf with
        ⟨cv, hcv, _⟩
      exact ⟨cv, hcv⟩
    rcases mapME_ok_of_forall hmok with ⟨chans, hchans⟩
    have hlen := (mapME_ok hchans).1
    have hpoint := (mapME_ok hchans).2
    refine ⟨⟨req.group_id, chans⟩, ?_, ?_, ?_⟩
    · simp only [get_values, hg]
      rw [if_neg (by simp), if_neg (by omega), ← hendi, hchans]
    · refine List.ext ?_
      intro n
      rw [List.get?_map]
      cases hn : req.channel_ids.get? n with
      | none =>
        have hn' : req.channel_ids.length ≤ n := List.get?_eq_none.mp hn
        have hcn : chans.get? n = none := List.get?_eq_none.mpr (by omega)
        rw [hcn]
        rfl
      | some i =>
        rcases hpoint n i hn with ⟨cv, hcvn, hm⟩
        rcases marshal_channel_ok hdt req.start endi i
            (hch i (List.get?_mem hn)) hwf with ⟨cv', hm', hid', _⟩
        rw [hm] at hm'
        injection hm' with he
        subst he
        rw [hcvn]
        simp [hid']
    · intro cv hcv hnc hnd
      have hcv' : cv ∈ chans := hcv
      rcases List.mem_iff_get?.mp hcv' with ⟨n, hcvn⟩
      have hnlt : n < chans.length := by
        by_contra hge
        rw [List.get?_eq_none.mpr (by omega)] at hcvn
        cases hcvn
      have hn : ∃ i, req.channel_ids.get? n = some i :=
        ⟨_, List.get?_eq_get (by omega)⟩
      rcases hn with ⟨i, hn⟩
      rcases hpoint n i hn with ⟨cv2, hcvn2, hm⟩
      rw [hcvn] at hcvn2
      injection hcvn2 with he2
      subst he2
      rcases marshal_channel_ok hdt req.start endi i
          (hch i (List.get?_mem hn)) hwf with ⟨cv', hm', _, _, _, hsznc⟩
      rw [hm] at hm'
      injection hm' with he
      subst he
      have hsz' := hsznc (by tauto)
      rw [hsz']
      have hicol : i < b.pdata.cols.length := hch i (List.get?_mem hn)
      obtain ⟨c, hcget⟩ : ∃ c, b.pdata.cols.get? i = some c :=
        ⟨_, List.get?_eq_get hicol⟩
      have hcl : c.cells.length = b.pdata.nrows :=
        hrows c (List.get?_mem hcget)
      rw [column_cells_eq hcget]
      simp only [List.length_take, List.length_drop, hcl]
      have : b.number_of_rows = b.pdata.nrows := rfl
      rw [hendi]
      split <;> omega
  · intro hstart
    simp [get_values, hg, hstart]

/-- Backend used by the C1/C2 witnesses: an integer column and a complex
column of three rows. -/
def c1backend : Backend :=
  { notMyFile := false,
    pdata := { nrows := 3,
               cols := [{ name := some "x".toList, dtype := .int64,
                          cells := [.intv 1, .intv 2, .intv 3] },
                        { name := some "z".toList, dtype := .complex64,
                          cells := [.complexv 10 11, .complexv 20 21,
                                    .complexv 30 31] }] },
    fileAttrs := [], groupAttrs := [],
    columnNamesOverride := none,
    columnUnits := [], columnDescriptions := [] }

/-- Witness for C1 at `c1backend` with request
`group 0, channels [0, 1], start 1, limit 5`. -/
theorem claim_C1_witness :
    ((⟨0, [0, 1], 1, 5⟩ : ValuesRequest).start < c1backend.number_of_rows →
      ∃ res, get_values ⟨some c1backend⟩ ⟨0, [0, 1], 1, 5⟩ = .ok res ∧
        res.channels.map (·.id) = (⟨0, [0, 1], 1, 5⟩ : ValuesRequest).channel_ids ∧
        (∀ cv ∈ res.channels,
          ¬ cv.data_type = .DT_COMPLEX → ¬ cv.data_type = .DT_DCOMPLEX →
          cv.values.size = min (5 : Nat) (c1backend.number_of_rows - 1))) ∧
    (c1backend.number_of_rows ≤ (⟨0, [0, 1], 1, 5⟩ : ValuesRequest).start →
      get_values ⟨some c1backend⟩ ⟨0, [0, 1], 1, 5⟩ = .error .invalidArgument) :=
  claim_C1 c1backend ⟨0, [0, 1], 1, 5⟩ [.DT_LONGLONG, .DT_COMPLEX] rfl rfl
    (by decide) (by decide) (by decide)

/-- C2: a complex-typed channel (COMPLEX or DOUBLE-COMPLEX) in a valid
`GetValues` request yields a float (respectively double) array of exactly
`2 * n` entries for a slice of length `n`, interleaved so that entry `2k` is
the real part and entry `2k + 1` the imaginary part of source value `k`. -/
theorem claim_C2 (b : Backend) (req : ValuesRequest) (dts : List OdsDataType)
    (c : Column) (p j : Nat)
    (hg : req.group_id = 0)
    (hdt : b.column_datatypes = .ok dts)
    (hch : ∀ i ∈ req.channel_ids, i < b.number_of_columns)
    (hwf : ∀ c' ∈ b.pdata.cols, ∀ x ∈ c'.cells, cellMatches c'.dtype x = true)
    (hstart : req.start < b.number_of_rows)
    (hj : req.channel_ids.get? p = some j)
    (hc : b.pdata.cols.get? j = some c)
    (hcd : c.dtype = .complex64 ∨ c.dtype = .complex128) :
    ∃ res cv arr,
      get_values ⟨some b⟩ req = .ok res ∧
      res.channels.get? p = some cv ∧
      cv.values = (if c.dtype = .complex64 then TypedValues.floatArr arr
                   else TypedValues.doubleArr arr) ∧
      cv.data_type = (if c.dtype = .complex64 then OdsDataType.DT_COMPLEX
                      else OdsDataType.DT_DCOMPLEX) ∧
      arr.length = 2 * ((c.cells.drop req.start).take
          (min (req.start + req.limit) b.number_of_rows - req.start)).length ∧
      (∀ k, k < ((c.cells.drop req.start).take
          (min (req.start + req.limit) b.number_of_rows - req.start)).length →
        arr.get? (2 * k) = (((c.cells.drop req.start).take
          (min (req.start + req.limit) b.number_of_rows - req.start)).get? k).map
            Cell.reVal ∧
        arr.get? (2 * k + 1) = (((c.cells.drop req.start).take
          (min (req.start + req.limit) b.number_of_rows - req.start)).get? k).map
            Cell.imVal) := by
  set endi := if b.number_of_rows ≤ req.start + req.limit
      then b.number_of_rows else req.start + req.limit with hendi
  have hmok : ∀ i ∈ req.channel_ids,
      ∃ cv, marshal_channel b req.start endi i = .ok cv := by
    intro i hi
    rcases marshal_channel_ok hdt req.start endi i (hch i hi) hwf with
      ⟨cv, hcv, _⟩
    exact ⟨cv, hcv⟩
  rcases mapME_ok_of_forall hmok with ⟨chans, hchans⟩
  rcases (mapME_ok hchans).2 p j hj with ⟨cv, hcvp, hm⟩
  rcases (mapME_ok hdt).2 j c hc with ⟨dt, hdget, hgd⟩
  have hgetD : dts.getD j .DT_UNKNOWN = dt := by
    rw [List.get?_eq_getElem?] at hdget
    simp [List.getD, hdget]
  have hcells : b.column_cells j = c.cells := column_cells_eq hc
  have hmin : endi - req.start =
      min (req.start + req.limit) b.number_of_rows - req.start := by
    rw [hendi]; split <;> omega
  have hgv : get_values ⟨some b⟩ req = .ok ⟨req.group_id, chans⟩ := by
    simp only [get_values, hg]
    rw [if_neg (by simp), if_neg (by omega), ← hendi, hchans]
  rcases hcd with hc64 | hc128
  · have hdtc : dt = .DT_COMPLEX := by
      rw [hc64] at hgd
      simp [get_datatype, NpDtype.is_string_dtype, NpDtype.is_complex_dtype] at hgd
      exact hgd.symm
    have hmeq : marshal_channel b req.start endi j =
        .ok ⟨j, .DT_COMPLEX,
          .floatArr ((((b.column_cells j).drop req.start).take
            (endi - req.start)).flatMap (fun x => [x.reVal, x.imVal]))⟩ := by
      simp only [marshal_channel, hdt]
      rw [if_neg (by have := hch j (List.get?_mem hj); omega), hgetD, hdtc]
    rw [hmeq] at hm
    injection hm with he
    subst he
    refine ⟨⟨req.group_id, chans⟩, _,
      (((c.cells.drop req.start).take
        (min (req.start + req.limit) b.number_of_rows - req.start)).flatMap
          (fun x => [x.reVal, x.imVal])),
      hgv, hcvp, ?_, ?_, ?_, ?_⟩
    · simp [hc64, hcells, hmin]
    · simp [hc64]
    · rw [flatMap_pair_length]
    · intro k _
      exact ⟨flatMap_pair_get?_even _ _ _ k, flatMap_pair_get?_odd _ _ _ k⟩
  · have hdtc : dt = .DT_DCOMPLEX := by
      rw [hc128] at hgd
      simp [get_datatype, NpDtype.is_string_dtype, NpDtype.is_complex_dtype] at hgd
      exact hgd.symm
    have hmeq : marshal_channel b req.start endi j =
        .ok ⟨j, .DT_DCOMPLEX,
          .doubleArr ((((b.column_cells j).drop req.start).take
            (endi - req.start)).flatMap (fun x => [x.reVal, x.imVal]))⟩ := by
      simp only [marshal_channel, hdt]
      rw [if_neg (by have := hch j (List.get?_mem hj); omega), hgetD, hdtc]
    rw [hmeq] at hm
    injection hm with he
    subst he
    have hne : ¬ c.dtype = .complex64 := by rw [hc128]; simp
    refine ⟨⟨req.group_id, chans⟩, _,
      (((c.cells.drop req.start).take
        (min (req.start + req.limit) b.number_of_rows - req.start)).flatMap
          (fun x => [x.reVal, x.imVal])),
      hgv, hcvp, ?_, ?_, ?_, ?_⟩
    · simp [hne, hcells, hmin]
    · simp [hne]
    · rw [flatMap_pair_length]
    · intro k _
      exact ⟨flatMap_pair_get?_even _ _ _ k, flatMap_pair_get?_odd _ _ _ k⟩

/-- Witness for C2 at `c1backend`: the second requested channel is the
complex column, sliced from row 1 with limit 5. -/
theorem claim_C2_witness :
    ∃ res cv arr,
      get_values ⟨some c1backend⟩ ⟨0, [0, 1], 1, 5⟩ = .ok res ∧
      res.channels.get? 1 = some cv ∧
      cv.values = (if (⟨some "z".toList, .complex64,
          [.complexv 10 11, .complexv 20 21, .complexv 30 31]⟩ : Column).dtype =
            .complex64
        then TypedValues.floatArr arr else TypedValues.doubleArr arr) ∧
      cv.data_type = (if (⟨some "z".toList, .complex64,
          [.complexv 10 11, .complexv 20 21, .complexv 30 31]⟩ : Column).dtype =
            .complex64
        then OdsDataType.DT_COMPLEX else OdsDataType.DT_DCOMPLEX) ∧
      arr.length = 2 * ((([.complexv 10 11, .complexv 20 21,
          .complexv 30 31] : List Cell).drop 1).take
          (min (1 + 5) c1backend.number_of_rows - 1)).length ∧
      (∀ k, k < ((([.complexv 10 11, .complexv 20 21,
          .complexv 30 31] : List Cell).drop 1).take
          (min (1 + 5) c1backend.number_of_rows - 1)).length →
        arr.get? (2 * k) = (((([.complexv 10 11, .complexv 20 21,
          .complexv 30 31] : List Cell).drop 1).take
          (min (1 + 5) c1backend.number_of_rows - 1)).get? k).map Cell.reVal ∧
        arr.get? (2 * k + 1) = (((([.complexv 10 11, .complexv 20 21,
          .complexv 30 31] : List Cell).drop 1).take
          (min (1 + 5) c1backend.number_of_rows - 1)).get? k).map Cell.imVal) :=
  claim_C2 c1backend ⟨0, [0, 1], 1, 5⟩ [.DT_LONGLONG, .DT_COMPLEX]
    ⟨some "z".toList, .complex64, [.complexv 10 11, .complexv 20 21,
      .complexv 30 31]⟩ 1 1 rfl rfl (by decide) (by decide) (by decide)
    rfl rfl (Or.inl rfl)

/-! ## Claim C9: shape of the ASAM ODS time format -/

theorem digitChar_mod_isDigit (x : Nat) : (digitChar (x % 10)).isDigit = true := by
  have hx : x % 10 < 10 := Nat.mod_lt _ (by norm_num)
  have hall : ∀ d, d < 10 → (digitChar d).isDigit = true := by decide
  exact hall _ hx

theorem fmtYear_eq_pad4 {y : Nat} (hy : 1000 ≤ y) : fmtYear y = pad4 y := by
  unfold fmtYear
  rw [if_neg (by omega), if_neg (by omega), if_neg (by omega)]

theorem fmtYear_digits (n : Nat) : (fmtYear n).all Char.isDigit = true := by
  unfold fmtYear
  split
  · simp [digitChar_mod_isDigit]
  · split
    · simp [digitChar_mod_isDigit]
    · split
      · simp [digitChar_mod_isDigit]
      · simp [pad4, digitChar_mod_isDigit]

theorem fmtDateTime_length {y : Nat} (mo d h mi s : Nat) (hy : 1000 ≤ y) :
    (fmtDateTime y mo d h mi s).length = 14 := by
  simp [fmtDateTime, fmtYear_eq_pad4 hy, pad4, pad2]

theorem fmtDateTime_digits (y mo d h mi s : Nat) :
    (fmtDateTime y mo d h mi s).all Char.isDigit = true := by
  simp [fmtDateTime, pad2, fmtYear_digits, digitChar_mod_isDigit]

theorem dropWhile_head?_false (p : Char → Bool) :
    ∀ (l : List Char) (x : Char), (l.dropWhile p).head? = some x → p x = false := by
  intro l
  induction l with
  | nil => intro x hx; simp at hx
  | cons a rest ih =>
    intro x hx
    by_cases hpa : p a = true
    · rw [List.dropWhile_cons_of_pos hpa] at hx
      exact ih x hx
    · rw [List.dropWhile_cons_of_neg hpa] at hx
      simp at hx
      subst hx
      simpa using hpa

theorem rstrip0_getLast? (l : PStr) :
    ¬ rstrip0 l = [] → ¬ (rstrip0 l).getLast? = some '0' := by
  intro hne hlast
  rw [rstrip0, List.getLast?_reverse] at hlast
  have := dropWhile_head?_false (fun c => c = '0') l.reverse '0' hlast
  simp at this

/-- Shared shape of every `strftime + fractional suffix` output when the
year prints with four digits: at least 14 characters, a 14-digit prefix, and
never a trailing `'0'` past the fractional boundary. -/
theorem fmtDateTime_frac_shape (y mo d h mi s : Nat) (hy : 1000 ≤ y)
    (fr : PStr) :
    14 ≤ (fmtDateTime y mo d h mi s ++ rstrip0 fr).length ∧
    ((fmtDateTime y mo d h mi s ++ rstrip0 fr).take 14).all Char.isDigit
      = true ∧
    (¬ (fmtDateTime y mo d h mi s ++ rstrip0 fr).drop 14 = [] →
      ¬ (fmtDateTime y mo d h mi s ++ rstrip0 fr).getLast? = some '0') := by
  have h14 : (fmtDateTime y mo d h mi s).length = 14 :=
    fmtDateTime_length mo d h mi s hy
  refine ⟨?_, ?_, ?_⟩
  · simp [h14]
  · have h14' : (14 : Nat) = (fmtDateTime y mo d h mi s).length := h14.symm
    rw [h14', List.take_left]
    exact fmtDateTime_digits y mo d h mi s
  · intro hne
    have h14' : (14 : Nat) = (fmtDateTime y mo d h mi s).length := h14.symm
    rw [h14', List.drop_left] at hne
    rw [List.getLast?_append]
    cases hfr : (rstrip0 fr).getLast? with
    | none =>
      rw [List.getLast?_eq_none_iff] at hfr
      exact absurd hfr hne
    | some x =>
      have := rstrip0_getLast? fr hne
      rw [hfr] at this
      simp only [Option.or_some]
      exact this

/-- C9 (amended): for every supported input whose `%Y` field prints with
four digits - year at least 1000; glibc renders earlier years shorter - a
successful `TimeHelper.to_asam_ods_time` result is at least 14 characters
and starts with a 14-digit `YYYYMMDDhhmmss` block, the character after the
fractional boundary never leaves a trailing `'0'` (no fractional suffix at
all when the fraction is zero), and a date-only value formats with time part
`000000` (exactly 14 characters). -/
theorem claim_C9 (t : TimeValue) (out : PStr)
    (h : to_asam_ods_time t = .ok out) (hy : 1000 ≤ t.year) :
    14 ≤ out.length ∧
    (out.take 14).all Char.isDigit = true ∧
    (¬ out.drop 14 = [] → ¬ out.getLast? = some '0') ∧
    (∀ y mo d, t = .pyDate y mo d →
      out.drop 8 = "000000".toList ∧ out.length = 14) := by
  cases t with
  | np64 y mo d hh mi s frac =>
    simp only [TimeValue.year] at hy
    simp only [to_asam_ods_time] at h
    by_cases hrange : y < 1 ∨ 9999 < y
    · rw [if_pos hrange] at h; simp at h
    · rw [if_neg hrange] at h
      simp only [Except.ok.injEq] at h
      subst h
      obtain ⟨h1, h2, h3⟩ := fmtDateTime_frac_shape y mo d hh mi s hy
        (fracNine frac)
      exact ⟨h1, h2, h3, by intro y' mo' d' heq; simp at heq⟩
  | pyDatetime y mo d hh mi s us =>
    simp only [TimeValue.year] at hy
    simp only [to_asam_ods_time, Except.ok.injEq] at h
    subst h
    obtain ⟨h1, h2, h3⟩ := fmtDateTime_frac_shape y mo d hh mi s hy
      (pad9 (us * 1000))
    exact ⟨h1, h2, h3, by intro y' mo' d' heq; simp at heq⟩
  | pyDate y mo d =>
    simp only [TimeValue.year] at hy
    simp only [to_asam_ods_time, Except.ok.injEq] at h
    subst h
    rw [fmtYear_eq_pad4 hy]
    have h8 : (pad4 y ++ pad2 mo ++ pad2 d).length = 8 := by
      simp [pad4, pad2]
    refine ⟨?_, ?_, ?_, ?_⟩
    · simp [pad4, pad2]
    · have : pad4 y ++ pad2 mo ++ pad2 d ++ "000000".toList =
          (pad4 y ++ pad2 mo ++ pad2 d ++ "000000".toList).take 14 := by
        rw [List.take_of_length_le]
        simp [pad4, pad2]
      rw [← this]
      simp only [pad4, pad2, List.all_append, List.all_cons, List.all_nil,
        Bool.and_eq_true]
      refine ⟨⟨⟨⟨?_, ?_, ?_, ?_, trivial⟩, ?_, ?_, trivial⟩, ?_, ?_, trivial⟩, ?_⟩
        <;> first
          | exact digitChar_mod_isDigit _
          | decide
    · intro hne
      have : (pad4 y ++ pad2 mo ++ pad2 d ++ "000000".toList).drop 14 = [] := by
        rw [List.drop_eq_nil_iff_le]
        simp [pad4, pad2]
      exact absurd this hne
    · intro y' mo' d' _
      constructor
      · have h8' : (8 : Nat) = (pad4 y ++ pad2 mo ++ pad2 d).length := h8.symm
        rw [h8', List.drop_left]
      · simp [pad4, pad2]
  | unixInt ts =>
    simp only [TimeValue.year] at hy
    simp only [to_asam_ods_time] at h
    by_cases hrange : (fromtimestampUTC ts).1 < 1 ∨ 9999 < (fromtimestampUTC ts).1
    · rw [if_pos hrange] at h; simp at h
    · rw [if_neg hrange] at h
      simp only [Except.ok.injEq] at h
      subst h
      obtain ⟨h1, h2, h3⟩ := fmtDateTime_frac_shape _ _ _ _ _ _ hy (pad9 0)
      exact ⟨h1, h2, h3, by intro y' mo' d' heq; simp at heq⟩
  | unixFloat ts ns =>
    simp only [TimeValue.year] at hy
    simp only [to_asam_ods_time] at h
    by_cases hrange : (fromtimestampUTC ts).1 < 1 ∨ 9999 < (fromtimestampUTC ts).1
    · rw [if_pos hrange] at h; simp at h
    · rw [if_neg hrange] at h
      simp only [Except.ok.injEq] at h
      subst h
      obtain ⟨h1, h2, h3⟩ := fmtDateTime_frac_shape _ _ _ _ _ _ hy (pad9 ns)
      exact ⟨h1, h2, h3, by intro y' mo' d' heq; simp at heq⟩
  | unsupported => simp [to_asam_ods_time] at h

/-- Witness for C9 at the spec's example instant
`2023-01-15T10:30:45.100000`. -/
theorem claim_C9_witness :
    to_asam_ods_time (.pyDatetime 2023 1 15 10 30 45 100000) =
      .ok ('2' :: "02301151030451".toList) ∧
    1000 ≤ (TimeValue.pyDatetime 2023 1 15 10 30 45 100000).year ∧
    (14 ≤ (('2' :: "02301151030451".toList) : PStr).length ∧
     ((('2' :: "02301151030451".toList) : PStr).take 14).all Char.isDigit = true ∧
     (¬ (('2' :: "02301151030451".toList) : PStr).drop 14 = [] →
       ¬ (('2' :: "02301151030451".toList) : PStr).getLast? = some '0') ∧
     (∀ y mo d, TimeValue.pyDatetime 2023 1 15 10 30 45 100000 =
         TimeValue.pyDate y mo d →
       (('2' :: "02301151030451".toList) : PStr).drop 8 = "000000".toList ∧
       (('2' :: "02301151030451".toList) : PStr).length = 14)) :=
  ⟨rfl, by decide,
   claim_C9 (.pyDatetime 2023 1 15 10 30 45 100000) _ rfl (by decide)⟩

/-- C9 counterexample: glibc prints `%Y` without zero padding, so the
year-50 date formats as the 12-character `'500115000000'` - the original
claim's 14-character minimum (and with it the 14-digit prefix) fails for
years below 1000. -/
theorem claim_C9_counterexample :
    to_asam_ods_time (.pyDate 50 1 15) = .ok "500115000000".toList ∧
    ¬ 14 ≤ ("500115000000".toList : PStr).length :=
  ⟨rfl, by decide⟩

/-! ## ParamParser (utils/param_parser.py)

The parameter string is a Python `str` (a `PStr`); `str.encode`/`bytes.decode`
convert between code points and UTF-8 bytes (naturals below 256), and
`base64.b64decode` works on the byte/character level.  `str.strip()` is
modelled over the ASCII whitespace characters. -/

/-- Whitespace for `str.strip()` (the ASCII whitespace characters). -/
def pyWs (c : Char) : Bool :=
  c = ' ' ∨ c = '\t' ∨ c = '\n' ∨ c = '\r' ∨ c = '\x0b' ∨ c = '\x0c'

/-- Embeds `str.strip()`: drop whitespace from both ends. -/
def pystrip (s : PStr) : PStr :=
  ((s.dropWhile pyWs).reverse.dropWhile pyWs).reverse

/-- UTF-8 encoding of one code point (`str.encode('utf-8')`, per character). -/
def utf8EncodeChar (c : Char) : List Nat :=
  let n := c.toNat
  if n < 0x80 then [n]
  else if n < 0x800 then [0xC0 + n / 64, 0x80 + n % 64]
  else if n < 0x10000 then [0xE0 + n / 4096, 0x80 + n / 64 % 64, 0x80 + n % 64]
  else [0xF0 + n / 262144, 0x80 + n / 4096 % 64, 0x80 + n / 64 % 64, 0x80 + n % 64]

/-- UTF-8 encoding of a string (`str.encode('utf-8')`). -/
def utf8Encode (s : PStr) : List Nat := s.flatMap utf8EncodeChar

/-- Fuelled UTF-8 decoding (`bytes.decode('utf-8')`): validates lead and
continuation bytes, rejects overlong forms, surrogates and out-of-range code
points.  One unit of fuel is spent per decoded character, so fuel equal to
the byte count always suffices. -/
def utf8DecodeF : Nat → List Nat → Option PStr
  | _, [] => some []
  | 0, _ :: _ => none
  | fuel + 1, b0 :: rest =>
    if b0 < 0x80 then
      (utf8DecodeF fuel rest).map (fun cs => Char.ofNat b0 :: cs)
    else if 0xC2 ≤ b0 ∧ b0 < 0xE0 then
      match rest with
      | b1 :: rest1 =>
        if 0x80 ≤ b1 ∧ b1 < 0xC0 then
          (utf8DecodeF fuel rest1).map
            (fun cs => Char.ofNat ((b0 - 0xC0) * 64 + (b1 - 0x80)) :: cs)
        else none
      | [] => none
    else if 0xE0 ≤ b0 ∧ b0 < 0xF0 then
      match rest with
      | b1 :: b2 :: rest2 =>
        if (0x80 ≤ b1 ∧ b1 < 0xC0) ∧ (0x80 ≤ b2 ∧ b2 < 0xC0) then
          let n := (b0 - 0xE0) * 4096 + (b1 - 0x80) * 64 + (b2 - 0x80)
          if 0x800 ≤ n ∧ (n < 0xD800 ∨ 0xE000 ≤ n) then
            (utf8DecodeF fuel rest2).map (fun cs => Char.ofNat n :: cs)
          else none
        else none
      | _ => none
    else if 0xF0 ≤ b0 ∧ b0 < 0xF5 then
      match rest with
      | b1 :: b2 :: b3 :: rest3 =>
        if (0x80 ≤ b1 ∧ b1 < 0xC0) ∧ (0x80 ≤ b2 ∧ b2 < 0xC0) ∧
            (0x80 ≤ b3 ∧ b3 < 0xC0) then
          let n := (b0 - 0xF0) * 262144 + (b1 - 0x80) * 4096 +
            (b2 - 0x80) * 64 + (b3 - 0x80)
          if 0x10000 ≤ n ∧ n < 0x110000 then
            (utf8DecodeF fuel rest3).map (fun cs => Char.ofNat n :: cs)
          else none
        else none
      | _ => none
    else none

/-- UTF-8 decoding of a byte string (`bytes.decode('utf-8')`). -/
def utf8Decode (bs : List Nat) : Option PStr := utf8DecodeF bs.length bs

/-- The base64 alphabet in index order. -/
def b64chars : List Char :=
  "ABCDEFGHIJKLMNOPQRSTUVWXYZabcdefghijklmnopqrstuvwxyz0123456789+/".toList

/-- Character of a 6-bit group. -/
def b64charOf (n : Nat) : Char := b64chars.getD n 'A'

/-- 6-bit group of an alphabet character (`none` outside the alphabet). -/
def b64decChar (c : Char) : Option Nat := b64chars.indexOf? c

/-- Embeds `base64.b64encode` on a byte string: three bytes per four
characters, `'='`-padded. -/
def b64encodeBytes : List Nat → List Char
  | [] => []
  | [a] => [b64charOf (a / 4), b64charOf (a % 4 * 16), '=', '=']
  | [a, b] => [b64charOf (a / 4), b64charOf (a % 4 * 16 + b / 16),
               b64charOf (b % 16 * 4), '=']
  | a :: b :: c :: rest =>
      b64charOf (a / 4) :: b64charOf (a % 4 * 16 + b / 16) ::
      b64charOf (b % 16 * 4 + c / 64) :: b64charOf (c % 64) ::
      b64encodeBytes rest

/-- The quad loop of `binascii.a2b_base64` in its default non-strict mode
(`base64.b64decode` without `validate`), state for state: `quadPos` is the
number of six-bit groups buffered in the current quad, `leftchar` holds
their undischarged low bits, and `pads` counts the pad characters seen since
the last data character.  An alphabet character resets `pads`, shifts in six
bits and emits a byte on the second, third and fourth position of a quad; a
`'='` is ignored outright while fewer than two groups are buffered and
otherwise ends the input once `quadPos + pads` completes a quad (everything
after is discarded); any other character is skipped.  Input that ends with a
partially filled quad is the `binascii` error. -/
def a2b64 : List Char → Nat → Nat → Nat → Option (List Nat)
  | [], quadPos, _, _ => if quadPos = 0 then some [] else none
  | c :: rest, quadPos, leftchar, pads =>
    if c = '=' then
      if 2 ≤ quadPos then
        if 4 ≤ quadPos + (pads + 1) then some []
        else a2b64 rest quadPos leftchar (pads + 1)
      else a2b64 rest quadPos leftchar pads
    else
      match b64decChar c with
      | none => a2b64 rest quadPos leftchar pads
      | some v =>
        if quadPos = 0 then a2b64 rest 1 v 0
        else if quadPos = 1 then
          (a2b64 rest 2 (v % 16) 0).map (fun bs => (leftchar * 4 + v / 16) :: bs)
        else if quadPos = 2 then
          (a2b64 rest 3 (v % 4) 0).map (fun bs => (leftchar * 16 + v / 4) :: bs)
        else
          (a2b64 rest 0 0 0).map (fun bs => (leftchar * 64 + v) :: bs)

/-- Embeds `base64.b64decode` on a `str` argument: `_bytes_from_decode_data`
runs `s.encode('ascii')`, which rejects any non-ASCII character with a
`ValueError`, and `binascii.a2b_base64` then decodes leniently. -/
def b64decode (l : List Char) : Option (List Nat) :=
  if l.all (fun c => c.toNat < 128) then a2b64 l 0 0 0 else none

/-- JSON values.  Models the result domain of Python's stdlib `json.loads`
(an external library of this code).  A number without fraction or exponent
becomes a Python `int` (`jnum`); one with either part, and the constants
`NaN`, `Infinity` and `-Infinity`, become Python floats, which the embedding
carries as the matched literal text verbatim (`float()` is never inspected
by this program, only stored). -/
inductive JVal where
  | jnull
  | jbool (b : Bool)
  | jnum (n : Int)
  | jfloat (lit : PStr)
  | jstr (s : PStr)
  | jarr (xs : List JVal)
  | jobj (kvs : List (PStr × JVal))

/-- The decoded parameter mapping: a Python `dict` as an insertion-ordered
association list with unique keys. -/
abbrev PDict := List (PStr × JVal)

/-- Python `dict` assignment `d[k] = v`: overwrite in place when the key
exists, append otherwise. -/
def dictInsert (m : PDict) (k : PStr) (v : JVal) : PDict :=
  if (m.find? (fun kv => kv.1 = k)).isSome then
    m.map (fun kv => if kv.1 = k then (k, v) else kv)
  else m ++ [(k, v)]

/-- JSON whitespace. -/
def jsonWs (c : Char) : Bool := c = ' ' ∨ c = '\t' ∨ c = '\n' ∨ c = '\r'

/-- Hexadecimal digit value. -/
def hexVal (c : Char) : Option Nat :=
  if c.isDigit then some (c.toNat - 48)
  else if 'a' ≤ c ∧ c ≤ 'f' then some (c.toNat - 87)
  else if 'A' ≤ c ∧ c ≤ 'F' then some (c.toNat - 55)
  else none

/-- Body of a JSON string after the opening quote: plain characters, the
single-character escapes and `\\uXXXX` (surrogate pairing not modelled). -/
def jstringBody : List Char → Option (PStr × List Char)
  | [] => none
  | '"' :: rest => some ([], rest)
  | '\\' :: esc =>
    (match esc with
     | [] => none
     | 'u' :: h1 :: h2 :: h3 :: h4 :: rest =>
       match hexVal h1, hexVal h2, hexVal h3, hexVal h4 with
       | some v1, some v2, some v3, some v4 =>
         (jstringBody rest).map (fun r =>
           (Char.ofNat (((v1 * 16 + v2) * 16 + v3) * 16 + v4) :: r.1, r.2))
       | _, _, _, _ => none
     | e :: rest =>
       let c? : Option Char :=
         if e = '"' then some '"'
         else if e = '\\' then some '\\'
         else if e = '/' then some '/'
         else if e = 'b' then some '\x08'
         else if e = 'f' then some '\x0c'
         else if e = 'n' then some '\n'
         else if e = 'r' then some '\r'
         else if e = 't' then some '\t'
         else none
       match c? with
       | some c => (jstringBody rest).map (fun r => (c :: r.1, r.2))
       | none => none)
  | c :: rest =>
    if c.toNat < 32 then none
    else (jstringBody rest).map (fun r => (c :: r.1, r.2))

/-- Longest prefix of decimal digits (maximal munch of `\d*`). -/
def digitsRun : List Char → List Char × List Char
  | c :: rest =>
    if c.isDigit then
      let r := digitsRun rest
      (c :: r.1, r.2)
    else ([], c :: rest)
  | [] => ([], [])

/-- Numeric value of a digit string. -/
def natOfDigits (ds : List Char) : Nat :=
  ds.foldl (fun a c => a * 10 + (c.toNat - 48)) 0

/-- Embeds the number match of the `json` scanner (`NUMBER_RE`, the regex
`(-?(?:0|[1-9]\d*))(\.\d+)?([eE][-+]?\d+)?` matched at the current
position): an optional minus, an integer part that is a lone `0` or starts
with a nonzero digit, an optional fraction of a dot plus at least one digit
and an optional exponent - each part by maximal munch, with an absent part
leaving its text unconsumed.  Plain integer matches convert with `int`;
anything with a fraction or exponent converts with `float` and is carried
as its literal. -/
def jnumber (s : List Char) : Option (JVal × List Char) :=
  let np : List Char × List Char :=
    match s with
    | '-' :: rest => (['-'], rest)
    | _ => ([], s)
  match np.2 with
  | c :: rest =>
    if c.isDigit then
      let ip : List Char × List Char :=
        if c = '0' then (['0'], rest)
        else ((fun r => (c :: r.1, r.2)) (digitsRun rest))
      let fr : List Char × List Char :=
        match ip.2 with
        | '.' :: d :: rest1 =>
          if d.isDigit then
            ((fun r => ('.' :: d :: r.1, r.2)) (digitsRun rest1))
          else ([], ip.2)
        | _ => ([], ip.2)
      let ex : List Char × List Char :=
        match fr.2 with
        | e :: rest1 =>
          if e = 'e' ∨ e = 'E' then
            let sg : List Char × List Char :=
              match rest1 with
              | s0 :: rest2 =>
                if s0 = '+' ∨ s0 = '-' then ([s0], rest2) else ([], rest1)
              | [] => ([], rest1)
            match sg.2 with
            | d :: rest2 =>
              if d.isDigit then
                ((fun r => (e :: (sg.1 ++ d :: r.1), r.2)) (digitsRun rest2))
              else ([], fr.2)
            | [] => ([], fr.2)
          else ([], fr.2)
        | [] => ([], fr.2)
      if fr.1 = [] ∧ ex.1 = [] then
        some (.jnum (if np.1 = [] then (natOfDigits ip.1 : Int)
                     else -(natOfDigits ip.1 : Int)), ip.2)
      else some (.jfloat (np.1 ++ ip.1 ++ fr.1 ++ ex.1), ex.2)
    else none
  | [] => none

mutual

/-- Fuelled JSON value grammar (the call depth is bounded by the fuel; fuel
equal to the input length always suffices). -/
def jparseVal : Nat → List Char → Option (JVal × List Char)
  | 0, _ => none
  | fuel + 1, s =>
    match s.dropWhile jsonWs with
    | [] => none
    | '"' :: rest => (jstringBody rest).map (fun r => (.jstr r.1, r.2))
    | '{' :: rest => jparseMembers fuel (rest.dropWhile jsonWs) []
    | '[' :: rest =>
      (match rest.dropWhile jsonWs with
       | ']' :: rest1 => some (.jarr [], rest1)
       | _ => jparseItems fuel rest [])
    | 't' :: 'r' :: 'u' :: 'e' :: rest => some (.jbool true, rest)
    | 'f' :: 'a' :: 'l' :: 's' :: 'e' :: rest => some (.jbool false, rest)
    | 'n' :: 'u' :: 'l' :: 'l' :: rest => some (.jnull, rest)
    | 'N' :: 'a' :: 'N' :: rest => some (.jfloat "NaN".toList, rest)
    | 'I' :: 'n' :: 'f' :: 'i' :: 'n' :: 'i' :: 't' :: 'y' :: rest =>
      some (.jfloat "Infinity".toList, rest)
    | '-' :: 'I' :: 'n' :: 'f' :: 'i' :: 'n' :: 'i' :: 't' :: 'y' :: rest =>
      some (.jfloat "-Infinity".toList, rest)
    | c :: rest =>
      if c = '-' ∨ c.isDigit then jnumber (c :: rest)
      else none

/-- Members of a JSON object, entered after `'{'` (leading whitespace already
dropped); builds the Python `dict` by repeated assignment, so a duplicate key
keeps the last value. -/
def jparseMembers : Nat → List Char → PDict → Option (JVal × List Char)
  | 0, _, _ => none
  | fuel + 1, s, acc =>
    match s with
    | '}' :: rest => some (.jobj acc, rest)
    | '"' :: rest =>
      (match jstringBody rest with
       | none => none
       | some (key, rest1) =>
         match rest1.dropWhile jsonWs with
         | ':' :: rest2 =>
           (match jparseVal fuel rest2 with
            | none => none
            | some (v, rest3) =>
              match rest3.dropWhile jsonWs with
              | ',' :: rest4 =>
                (match (rest4.dropWhile jsonWs) with
                 | '"' :: _ => jparseMembers fuel (rest4.dropWhile jsonWs)
                     (dictInsert acc key v)
                 | _ => none)
              | '}' :: rest4 => some (.jobj (dictInsert acc key v), rest4)
              | _ => none)
         | _ => none)
    | _ => none

/-- Items of a JSON array. -/
def jparseItems : Nat → List Char → List JVal → Option (JVal × List Char)
  | 0, _, _ => none
  | fuel + 1, s, acc =>
    match jparseVal fuel s with
    | none => none
    | some (v, rest) =>
      match rest.dropWhile jsonWs with
      | ',' :: rest1 => jparseItems fuel rest1 (acc ++ [v])
      | ']' :: rest1 => some (.jarr (acc ++ [v]), rest1)
      | _ => none

end

/-- Models Python's stdlib `json.loads` on a text whose first non-space
character is `'{'`: parse one JSON value and require only whitespace after
it; the result of a successful top-level object parse is the decoded
mapping. -/
def jsonLoads (s : PStr) : Option PDict :=
  match jparseVal (s.length + 1) s with
  | some (.jobj kvs, rest) =>
    if rest.dropWhile jsonWs = [] then some kvs else none
  | _ => none

/-- Error outcomes of `ParamParser.parse_params`, one constructor per raise
site, named after the spec's taxonomy: `invalidArgument` is the wrong-type
`ValueError`; the other four are the `MalformedParametersError` class
(invalid base64 / invalid JSON / missing `=` / empty key messages). -/
inductive ParamErr where
  | invalidArgument
  | malformedBase64
  | malformedJson
  | missingEquals
  | emptyKey
  deriving DecidableEq, Repr

/-- The spec's `MalformedParametersError` class. -/
def ParamErr.isMalformed : ParamErr → Bool
  | .invalidArgument => false
  | _ => true

/-- The dynamic argument of `parse_params`: `None`, a `str`, or a value of
any other type. -/
inductive PyParam where
  | pnone
  | pstr (s : PStr)
  | pother

/-- Embeds one iteration of the semicolon-pair loop (param_parser.py lines
60-71): strip the pair, skip it when empty, require a `'='`, split at the
first `'='`, strip key and value, reject an empty key, assign into the
dict. -/
def processPair (acc : PDict) (rawPair : PStr) : Except ParamErr PDict :=
  let pair := pystrip rawPair
  if pair = [] then .ok acc
  else if ¬ pair.contains '=' then .error .missingEquals
  else
    let key := pystrip (pair.takeWhile (fun c => ¬ c = '='))
    let value := pystrip ((pair.dropWhile (fun c => ¬ c = '=')).drop 1)
    if key = [] then .error .emptyKey
    else .ok (dictInsert acc key (.jstr value))

/-- The semicolon-pair loop: a raise aborts the whole call. -/
def semiLoop (acc : PDict) : List PStr → Except ParamErr PDict
  | [] => .ok acc
  | pr :: rest =>
    match processPair acc pr with
    | .error e => .error e
    | .ok acc' => semiLoop acc' rest

/-- Embeds the string dispatch of `ParamParser.parse_params` (param_parser.py
lines 33-72).  The `B64:` branch recurses on the decoded text; the fuel - one
unit per unwrapping level - makes the recursion structural, and an input's
length plus one is always enough fuel because every unwrap strictly shrinks
the text (`parseStr_fuel` below). -/
def parseStr : Nat → PStr → Except ParamErr PDict
  | 0, _ => .error .invalidArgument
  | fuel + 1, s =>
    if s = [] then .ok []
    else
      let trimmed := pystrip s
      if trimmed.take 4 = "B64:".toList then
        match b64decode (trimmed.drop 4) with
        | none => .error .malformedBase64
        | some bytes =>
          match utf8Decode bytes with
          | none => .error .malformedBase64
          | some decoded => parseStr fuel (pystrip decoded)
      else if trimmed.take 1 = ['{'] then
        match jsonLoads trimmed with
        | none => .error .malformedJson
        | some obj => .ok obj
      else if trimmed = [] then .ok []
      else semiLoop [] (trimmed.splitOn ';')

/-- Embeds `ParamParser.parse_params`: type check, `None`/empty short-cut,
then the string dispatch. -/
def parse_params : PyParam → Except ParamErr PDict
  | .pother => .error .invalidArgument
  | .pnone => .ok []
  | .pstr s => parseStr (s.length + 1) s

/-! ## Lemmas about stripping -/

theorem dropWhile_eq_self_of_all {p : Char → Bool} {l : PStr}
    (h : ∀ c ∈ l, p c = false) : l.dropWhile p = l := by
  cases l with
  | nil => rfl
  | cons a rest =>
    rw [List.dropWhile_cons_of_neg]
    simp [h a (List.mem_cons_self a rest)]

theorem pystrip_of_all {l : PStr} (h : ∀ c ∈ l, pyWs c = false) :
    pystrip l = l := by
  rw [pystrip, dropWhile_eq_self_of_all h,
    dropWhile_eq_self_of_all (by intro c hc; exact h c (List.mem_reverse.mp hc)),
    List.reverse_reverse]

theorem pystrip_length_le (l : PStr) : (pystrip l).length ≤ l.length := by
  rw [pystrip]
  calc ((l.dropWhile pyWs).reverse.dropWhile pyWs).reverse.length
      = ((l.dropWhile pyWs).reverse.dropWhile pyWs).length := List.length_reverse _
    _ ≤ (l.dropWhile pyWs).reverse.length :=
        List.Sublist.length_le (List.dropWhile_sublist _)
    _ = (l.dropWhile pyWs).length := List.length_reverse _
    _ ≤ l.length := List.Sublist.length_le (List.dropWhile_sublist _)

theorem pystrip_head?_false {l : PStr} {x : Char}
    (h : (pystrip l).head? = some x) : pyWs x = false := by
  rw [pystrip] at h
  rcases hm : (l.dropWhile pyWs).reverse.dropWhile pyWs with _ | ⟨a, m⟩
  · rw [hm] at h; simp at h
  · rw [hm] at h
    have hsuf : (l.dropWhile pyWs).reverse.dropWhile pyWs <:+
        (l.dropWhile pyWs).reverse := List.dropWhile_suffix pyWs
    rcases hsuf with ⟨t, ht⟩
    rw [hm] at ht
    have hlast : (l.dropWhile pyWs).reverse.getLast? = (a :: m).getLast? := by
      rw [← ht, List.getLast?_append]
      cases hg : (a :: m).getLast? with
      | none => simp at hg
      | some z => simp [Option.or]
    have hhead : (l.dropWhile pyWs).head? = (a :: m).getLast? := by
      rw [← List.getLast?_reverse, hlast]
    have hrev : ((a :: m).reverse).head? = (a :: m).getLast? := by
      rw [← List.getLast?_reverse, List.reverse_reverse]
    rw [hrev] at h
    rw [← hhead] at h
    exact dropWhile_head?_false pyWs l x h

theorem pystrip_getLast?_false {l : PStr} {x : Char}
    (h : (pystrip l).getLast? = some x) : pyWs x = false := by
  rw [pystrip, List.getLast?_reverse] at h
  exact dropWhile_head?_false pyWs _ x h

theorem pystrip_idem (l : PStr) : pystrip (pystrip l) = pystrip l := by
  rcases hs : pystrip l with _ | ⟨a, m⟩
  · rfl
  · have hhead : pyWs a = false := pystrip_head?_false (by rw [hs]; rfl)
    have hlast : ∀ z, (a :: m).getLast? = some z → pyWs z = false := by
      intro z hz
      exact pystrip_getLast?_false (by rw [hs]; exact hz)
    rw [pystrip]
    rw [List.dropWhile_cons_of_neg (by simp [hhead])]
    rcases hg : (a :: m).getLast? with _ | z
    · simp at hg
    · have hz := hlast z hg
      have hrevhead : (a :: m).reverse.head? = some z := by
        rw [List.head?_reverse, hg]
      rcases hrev : (a :: m).reverse with _ | ⟨b, mr⟩
      · simp at hrev
      · rw [hrev] at hrevhead
        injection hrevhead with hb
        subst hb
        rw [List.dropWhile_cons_of_neg (by simp [hz]), ← hrev,
          List.reverse_reverse]

/-! ## Lemmas about the base64 alphabet -/

theorem b64decChar_charOf : ∀ n, n < 64 → b64decChar (b64charOf n) = some n := by
  decide

theorem b64charOf_ne_pad : ∀ n, n < 64 → ¬ b64charOf n = '=' := by decide

theorem b64charOf_ascii : ∀ n, n < 64 → (b64charOf n).toNat < 128 := by decide

theorem pyWs_b64charOf : ∀ n, n < 64 → pyWs (b64charOf n) = false := by decide

theorem b64encodeBytes_chars :
    ∀ bs : List Nat, (∀ x ∈ bs, x < 256) →
      ∀ c ∈ b64encodeBytes bs, (∃ n, n < 64 ∧ c = b64charOf n) ∨ c = '=' := by
  intro bs
  induction bs using b64encodeBytes.induct with
  | case1 =>
    intro _ c hc
    simp [b64encodeBytes] at hc
  | case2 a =>
    intro hwf c hc
    have ha : a < 256 := hwf a (by simp)
    simp only [b64encodeBytes, List.mem_cons, List.not_mem_nil, or_false] at hc
    rcases hc with hc | hc | hc | hc <;> subst hc
    · exact Or.inl ⟨a / 4, by omega, rfl⟩
    · exact Or.inl ⟨a % 4 * 16, by omega, rfl⟩
    · exact Or.inr rfl
    · exact Or.inr rfl
  | case3 a b =>
    intro hwf c hc
    have ha : a < 256 := hwf a (by simp)
    have hb : b < 256 := hwf b (by simp)
    simp only [b64encodeBytes, List.mem_cons, List.not_mem_nil, or_false] at hc
    rcases hc with hc | hc | hc | hc <;> subst hc
    · exact Or.inl ⟨a / 4, by omega, rfl⟩
    · exact Or.inl ⟨a % 4 * 16 + b / 16, by omega, rfl⟩
    · exact Or.inl ⟨b % 16 * 4, by omega, rfl⟩
    · exact Or.inr rfl
  | case4 a b c0 rest ih =>
    intro hwf c hc
    have ha : a < 256 := hwf a (by simp)
    have hb : b < 256 := hwf b (by simp)
    have hc0 : c0 < 256 := hwf c0 (by simp)
    simp only [b64encodeBytes, List.mem_cons] at hc
    rcases hc with hc | hc | hc | hc | hc <;> (try subst hc)
    · exact Or.inl ⟨a / 4, by omega, rfl⟩
    · exact Or.inl ⟨a % 4 * 16 + b / 16, by omega, rfl⟩
    · exact Or.inl ⟨b % 16 * 4 + c0 / 64, by omega, rfl⟩
    · exact Or.inl ⟨c0 % 64, by omega, rfl⟩
    · exact ih (by intro x hx; exact hwf x (by simp [hx])) c hc

/-- Quad-loop step on a data character entering an empty quad. -/
theorem a2b64_cons0 {c : Char} {v : Nat} (hne : ¬ c = '=')
    (hv : b64decChar c = some v) (rest : List Char) (lc p : Nat) :
    a2b64 (c :: rest) 0 lc p = a2b64 rest 1 v 0 := by
  rw [a2b64, if_neg hne, hv]
  rfl

/-- Quad-loop step on the second data character of a quad. -/
theorem a2b64_cons1 {c : Char} {v : Nat} (hne : ¬ c = '=')
    (hv : b64decChar c = some v) (rest : List Char) (lc p : Nat) :
    a2b64 (c :: rest) 1 lc p =
      (a2b64 rest 2 (v % 16) 0).map (fun bs => (lc * 4 + v / 16) :: bs) := by
  rw [a2b64, if_neg hne, hv]
  rfl

/-- Quad-loop step on the third data character of a quad. -/
theorem a2b64_cons2 {c : Char} {v : Nat} (hne : ¬ c = '=')
    (hv : b64decChar c = some v) (rest : List Char) (lc p : Nat) :
    a2b64 (c :: rest) 2 lc p =
      (a2b64 rest 3 (v % 4) 0).map (fun bs => (lc * 16 + v / 4) :: bs) := by
  rw [a2b64, if_neg hne, hv]
  rfl

/-- Quad-loop step on the fourth data character of a quad. -/
theorem a2b64_cons3 {c : Char} {v : Nat} (hne : ¬ c = '=')
    (hv : b64decChar c = some v) (rest : List Char) (lc p : Nat) :
    a2b64 (c :: rest) 3 lc p =
      (a2b64 rest 0 0 0).map (fun bs => (lc * 64 + v) :: bs) := by
  rw [a2b64, if_neg hne, hv]
  rfl

/-- The `binascii` quad loop inverts the canonical encoding. -/
theorem a2b64_encode :
    ∀ bs : List Nat, (∀ x ∈ bs, x < 256) →
      a2b64 (b64encodeBytes bs) 0 0 0 = some bs := by
  intro bs
  induction bs using b64encodeBytes.induct with
  | case1 => intro _; rfl
  | case2 a =>
    intro hwf
    have ha : a < 256 := hwf a (by simp)
    simp only [b64encodeBytes]
    rw [a2b64_cons0 (b64charOf_ne_pad _ (by omega)) (b64decChar_charOf _ (by omega)),
      a2b64_cons1 (b64charOf_ne_pad _ (by omega)) (b64decChar_charOf _ (by omega))]
    simp [a2b64]
    omega
  | case3 a b =>
    intro hwf
    have ha : a < 256 := hwf a (by simp)
    have hb : b < 256 := hwf b (by simp)
    simp only [b64encodeBytes]
    rw [a2b64_cons0 (b64charOf_ne_pad _ (by omega)) (b64decChar_charOf _ (by omega)),
      a2b64_cons1 (b64charOf_ne_pad _ (by omega)) (b64decChar_charOf _ (by omega)),
      a2b64_cons2 (b64charOf_ne_pad _ (by omega)) (b64decChar_charOf _ (by omega))]
    simp [a2b64]
    exact ⟨by omega, by omega⟩
  | case4 a b c rest ih =>
    intro hwf
    have ha : a < 256 := hwf a (by simp)
    have hb : b < 256 := hwf b (by simp)
    have hc : c < 256 := hwf c (by simp)
    have hrest := ih (by intro x hx; exact hwf x (by simp [hx]))
    simp only [b64encodeBytes]
    rw [a2b64_cons0 (b64charOf_ne_pad _ (by omega)) (b64decChar_charOf _ (by omega)),
      a2b64_cons1 (b64charOf_ne_pad _ (by omega)) (b64decChar_charOf _ (by omega)),
      a2b64_cons2 (b64charOf_ne_pad _ (by omega)) (b64decChar_charOf _ (by omega)),
      a2b64_cons3 (b64charOf_ne_pad _ (by omega)) (b64decChar_charOf _ (by omega)),
      hrest]
    simp
    exact ⟨by omega, by omega, by omega⟩

/-- `base64.b64decode` is a left inverse of `base64.b64encode` on byte
strings. -/
theorem b64decode_encode {bs : List Nat} (hwf : ∀ x ∈ bs, x < 256) :
    b64decode (b64encodeBytes bs) = some bs := by
  have hascii : (b64encodeBytes bs).all (fun c => c.toNat < 128) = true := by
    rw [List.all_eq_true]
    intro c hc
    rcases b64encodeBytes_chars bs hwf c hc with ⟨n, hn, rfl⟩ | rfl
    · simpa using b64charOf_ascii n hn
    · decide
  rw [b64decode, if_pos hascii, a2b64_encode bs hwf]

/-- The quad loop never produces more bytes than it consumes characters
(every emitted byte discharges one data character). -/
theorem a2b64_length :
    ∀ (l : List Char) (q lc p : Nat) (bs : List Nat),
      a2b64 l q lc p = some bs → bs.length ≤ l.length := by
  intro l
  induction l with
  | nil =>
    intro q lc p bs h
    rw [a2b64] at h
    by_cases hq : q = 0
    · rw [if_pos hq] at h; cases h; simp
    · rw [if_neg hq] at h; cases h
  | cons c rest ih =>
    intro q lc p bs h
    rw [a2b64] at h
    by_cases hc : c = '='
    · rw [if_pos hc] at h
      by_cases h2 : 2 ≤ q
      · rw [if_pos h2] at h
        by_cases h4 : 4 ≤ q + (p + 1)
        · rw [if_pos h4] at h; cases h; simp
        · rw [if_neg h4] at h
          have := ih q lc (p + 1) bs h
          simp
          omega
      · rw [if_neg h2] at h
        have := ih q lc p bs h
        simp
        omega
    · rw [if_neg hc] at h
      cases hd : b64decChar c with
      | none =>
        rw [hd] at h
        have := ih q lc p bs h
        simp
        omega
      | some v =>
        rw [hd] at h
        dsimp only at h
        by_cases hq0 : q = 0
        · rw [if_pos hq0] at h
          have := ih 1 v 0 bs h
          simp
          omega
        · rw [if_neg hq0] at h
          by_cases hq1 : q = 1
          · rw [if_pos hq1] at h
            cases hrec : a2b64 rest 2 (v % 16) 0 with
            | none => rw [hrec] at h; simp at h
            | some bs' =>
              rw [hrec] at h
              cases h
              have := ih 2 (v % 16) 0 bs' hrec
              simp
              omega
          · rw [if_neg hq1] at h
            by_cases hq2 : q = 2
            · rw [if_pos hq2] at h
              cases hrec : a2b64 rest 3 (v % 4) 0 with
              | none => rw [hrec] at h; simp at h
              | some bs' =>
                rw [hrec] at h
                cases h
                have := ih 3 (v % 4) 0 bs' hrec
                simp
                omega
            · rw [if_neg hq2] at h
              cases hrec : a2b64 rest 0 0 0 with
              | none => rw [hrec] at h; simp at h
              | some bs' =>
                rw [hrec] at h
                cases h
                have := ih 0 0 0 bs' hrec
                simp
                omega

/-- `base64.b64decode` never produces more bytes than it was given
characters. -/
theorem b64decode_length {l : List Char} {bs : List Nat}
    (h : b64decode l = some bs) : bs.length ≤ l.length := by
  rw [b64decode] at h
  by_cases ha : (l.all fun c => c.toNat < 128) = true
  · rw [if_pos ha] at h
    exact a2b64_length l 0 0 0 bs h
  · rw [if_neg ha] at h
    cases h

/-! ## Lemmas about UTF-8 -/

theorem char_toNat_valid (c : Char) :
    c.toNat < 0xD800 ∨ (0xDFFF < c.toNat ∧ c.toNat < 0x110000) := by
  have h := c.valid
  rcases h with h | h
  · exact Or.inl h
  · exact Or.inr ⟨h.1, h.2⟩

theorem utf8EncodeChar_lt_256 (c : Char) : ∀ x ∈ utf8EncodeChar c, x < 256 := by
  have hv := char_toNat_valid c
  intro x hx
  simp only [utf8EncodeChar] at hx
  by_cases h1 : c.toNat < 0x80
  · rw [if_pos h1] at hx
    simp at hx
    omega
  · rw [if_neg h1] at hx
    by_cases h2 : c.toNat < 0x800
    · rw [if_pos h2] at hx
      simp at hx
      rcases hx with hx | hx <;> omega
    · rw [if_neg h2] at hx
      by_cases h3 : c.toNat < 0x10000
      · rw [if_pos h3] at hx
        simp at hx
        rcases hx with hx | hx | hx <;> omega
      · rw [if_neg h3] at hx
        simp at hx
        rcases hx with hx | hx | hx | hx <;> omega

theorem utf8Encode_lt_256 (s : PStr) : ∀ x ∈ utf8Encode s, x < 256 := by
  intro x hx
  rw [utf8Encode, List.mem_flatMap] at hx
  rcases hx with ⟨c, _, hxc⟩
  exact utf8EncodeChar_lt_256 c x hxc

theorem utf8EncodeChar_length_pos (c : Char) : 1 ≤ (utf8EncodeChar c).length := by
  simp only [utf8EncodeChar]
  by_cases h1 : c.toNat < 0x80
  · rw [if_pos h1]; simp
  · rw [if_neg h1]
    by_cases h2 : c.toNat < 0x800
    · rw [if_pos h2]; simp
    · rw [if_neg h2]
      by_cases h3 : c.toNat < 0x10000
      · rw [if_pos h3]; simp
      · rw [if_neg h3]; simp

theorem utf8Encode_length_ge (s : PStr) : s.length ≤ (utf8Encode s).length := by
  induction s with
  | nil => simp [utf8Encode]
  | cons c rest ih =>
    rw [utf8Encode, List.flatMap_cons, List.length_append]
    have := utf8EncodeChar_length_pos c
    rw [utf8Encode] at ih
    simp only [List.length_cons]
    omega

theorem utf8DecodeF_encode :
    ∀ (s : PStr) (fuel : Nat), s.length ≤ fuel →
      utf8DecodeF fuel (utf8Encode s) = some s := by
  intro s
  induction s with
  | nil =>
    intro fuel _
    cases fuel <;> rfl
  | cons c rest ih =>
    intro fuel hf
    cases fuel with
    | zero => simp at hf
    | succ f =>
      have hrec := ih f (by simp at hf; omega)
      have hv := char_toNat_valid c
      rw [utf8Encode, List.flatMap_cons]
      by_cases h1 : c.toNat < 0x80
      · have henc : utf8EncodeChar c = [c.toNat] := by
          simp only [utf8EncodeChar]
          rw [if_pos h1]
        rw [henc, List.cons_append, List.nil_append]
        simp only [utf8DecodeF]
        rw [if_pos h1, utf8Encode] at *
        rw [hrec]
        simp [Char.ofNat_toNat]
      · by_cases h2 : c.toNat < 0x800
        · have henc : utf8EncodeChar c =
              [0xC0 + c.toNat / 64, 0x80 + c.toNat % 64] := by
            simp only [utf8EncodeChar]
            rw [if_neg h1, if_pos h2]
          rw [henc]
          simp only [List.cons_append, List.nil_append, utf8DecodeF]
          rw [if_neg (by omega), if_pos (by omega : (0xC2 ≤ 0xC0 + c.toNat / 64
            ∧ 0xC0 + c.toNat / 64 < 0xE0))]
          simp only [List.append_eq, List.cons_append, List.nil_append]
          rw [if_pos (by omega : (0x80 ≤ 0x80 + c.toNat % 64
            ∧ 0x80 + c.toNat % 64 < 0xC0))]
          rw [utf8Encode] at hrec
          rw [hrec]
          have harith : (0xC0 + c.toNat / 64 - 0xC0) * 64 +
              (0x80 + c.toNat % 64 - 0x80) = c.toNat := by omega
          rw [harith]
          simp [Char.ofNat_toNat]
        · by_cases h3 : c.toNat < 0x10000
          · have henc : utf8EncodeChar c =
                [0xE0 + c.toNat / 4096, 0x80 + c.toNat / 64 % 64,
                 0x80 + c.toNat % 64] := by
              simp only [utf8EncodeChar]
              rw [if_neg h1, if_neg h2, if_pos h3]
            rw [henc]
            simp only [List.cons_append, List.nil_append, utf8DecodeF]
            rw [if_neg (by omega), if_neg (by omega),
              if_pos (by omega : (0xE0 ≤ 0xE0 + c.toNat / 4096
                ∧ 0xE0 + c.toNat / 4096 < 0xF0))]
            simp only [List.append_eq, List.cons_append, List.nil_append]
            rw [if_pos (by omega : ((0x80 ≤ 0x80 + c.toNat / 64 % 64
              ∧ 0x80 + c.toNat / 64 % 64 < 0xC0)
              ∧ 0x80 ≤ 0x80 + c.toNat % 64 ∧ 0x80 + c.toNat % 64 < 0xC0))]
            have harith : (0xE0 + c.toNat / 4096 - 0xE0) * 4096 +
                (0x80 + c.toNat / 64 % 64 - 0x80) * 64 +
                (0x80 + c.toNat % 64 - 0x80) = c.toNat := by omega
            rw [harith]
            rw [if_pos (by omega)]
            rw [utf8Encode] at hrec
            rw [hrec]
            simp [Char.ofNat_toNat]
          · have henc : utf8EncodeChar c =
                [0xF0 + c.toNat / 262144, 0x80 + c.toNat / 4096 % 64,
                 0x80 + c.toNat / 64 % 64, 0x80 + c.toNat % 64] := by
              simp only [utf8EncodeChar]
              rw [if_neg h1, if_neg h2, if_neg h3]
            rw [henc]
            simp only [List.cons_append, List.nil_append, utf8DecodeF]
            rw [if_neg (by omega), if_neg (by omega), if_neg (by omega),
              if_pos (by omega : (0xF0 ≤ 0xF0 + c.toNat / 262144
                ∧ 0xF0 + c.toNat / 262144 < 0xF5))]
            simp only [List.append_eq, List.cons_append, List.nil_append]
            rw [if_pos (by omega : ((0x80 ≤ 0x80 + c.toNat / 4096 % 64
              ∧ 0x80 + c.toNat / 4096 % 64 < 0xC0)
              ∧ (0x80 ≤ 0x80 + c.toNat / 64 % 64
                ∧ 0x80 + c.toNat / 64 % 64 < 0xC0)
              ∧ 0x80 ≤ 0x80 + c.toNat % 64 ∧ 0x80 + c.toNat % 64 < 0xC0))]
            have harith : (0xF0 + c.toNat / 262144 - 0xF0) * 262144 +
                (0x80 + c.toNat / 4096 % 64 - 0x80) * 4096 +
                (0x80 + c.toNat / 64 % 64 - 0x80) * 64 +
                (0x80 + c.toNat % 64 - 0x80) = c.toNat := by omega
            rw [harith]
            rw [if_pos (by omega)]
            rw [utf8Encode] at hrec
            rw [hrec]
            simp [Char.ofNat_toNat]

/-- `bytes.decode('utf-8')` is a left inverse of `str.encode('utf-8')`. -/
theorem utf8Decode_encode (s : PStr) : utf8Decode (utf8Encode s) = some s :=
  utf8DecodeF_encode s _ (utf8Encode_length_ge s)

theorem utf8DecodeF_length :
    ∀ (fuel : Nat) (bs : List Nat) (cs : PStr),
      utf8DecodeF fuel bs = some cs → cs.length ≤ bs.length := by
  intro fuel
  induction fuel with
  | zero =>
    intro bs cs h
    cases bs with
    | nil => cases h; simp
    | cons b0 rest => simp [utf8DecodeF] at h
  | succ f ih =>
    intro bs cs h
    cases bs with
    | nil => cases h; simp
    | cons b0 rest =>
      rcases rest with _ | ⟨b1, _ | ⟨b2, _ | ⟨b3, rest3⟩⟩⟩ <;>
        simp only [utf8DecodeF] at h <;>
        repeat' split at h
      all_goals
        first
        | (cases h <;> simp)
        | (rcases Option.map_eq_some'.mp h with ⟨cs', hcs', hmap⟩
           subst hmap
           have := ih _ _ hcs'
           simp at this ⊢
           omega)

/-! ## Lemmas about the parse dispatch -/

theorem b64encodeBytes_length_ge :
    ∀ bs : List Nat, bs.length ≤ (b64encodeBytes bs).length := by
  intro bs
  induction bs using b64encodeBytes.induct with
  | case1 => simp [b64encodeBytes]
  | case2 a => simp [b64encodeBytes]
  | case3 a b => simp [b64encodeBytes]
  | case4 a b c rest ih => simp [b64encodeBytes]; omega

/-- Whatever text a `B64:` unwrap produces is strictly shorter than the
original trimmed text. -/
theorem b64_unwrap_shrinks {s : PStr} {bytes : List Nat} {decoded : PStr}
    (htake : (pystrip s).take 4 = "B64:".toList)
    (hdec : b64decode ((pystrip s).drop 4) = some bytes)
    (hutf : utf8Decode bytes = some decoded) :
    (pystrip decoded).length < s.length := by
  have hstrip4 : 4 ≤ (pystrip s).length := by
    have := congrArg List.length htake
    simp at this
    omega
  have h1 : (pystrip s).length ≤ s.length := pystrip_length_le s
  have h2 : bytes.length ≤ ((pystrip s).drop 4).length :=
    b64decode_length hdec
  have h3 : decoded.length ≤ bytes.length := utf8DecodeF_length _ _ _ hutf
  have h4 : (pystrip decoded).length ≤ decoded.length := pystrip_length_le _
  have h5 : ((pystrip s).drop 4).length = (pystrip s).length - 4 := by simp
  omega

/-- Fuel irrelevance: any fuel above the input length computes the same
result as the canonical fuel. -/
theorem parseStr_fuel :
    ∀ (fuel : Nat) (s : PStr), s.length < fuel →
      parseStr fuel s = parseStr (s.length + 1) s := by
  intro fuel
  induction fuel using Nat.strong_induction_on with
  | _ fuel ihf =>
    intro s hs
    cases fuel with
    | zero => omega
    | succ f =>
      by_cases hf : f = s.length
      · subst hf; rfl
      · have hslt : s.length < f := by omega
        simp only [parseStr]
        by_cases hnil : s = []
        · simp [hnil]
        · rw [if_neg hnil, if_neg hnil]
          by_cases hb : (pystrip s).take 4 = "B64:".toList
          · rw [if_pos hb, if_pos hb]
            cases hdec : b64decode ((pystrip s).drop 4) with
            | none => rfl
            | some bytes =>
              dsimp only
              cases hutf : utf8Decode bytes with
              | none => rfl
              | some decoded =>
                dsimp only
                have hshrink := b64_unwrap_shrinks hb hdec hutf
                rw [ihf f (by omega) _ (by omega),
                  ihf s.length (by omega) _ (by omega)]
          · rw [if_neg hb, if_neg hb]

/-- Stripping the input first does not change the parse result (the dispatch
strips anyway). -/
theorem parseStr_strip (s : PStr) :
    parseStr ((pystrip s).length + 1) (pystrip s) =
      parseStr (s.length + 1) s := by
  by_cases hnil : s = []
  · subst hnil; rfl
  · by_cases hpnil : pystrip s = []
    · rw [hpnil]
      simp only [parseStr]
      rw [if_neg hnil]
      rw [hpnil]
      simp
    · simp only [parseStr]
      rw [if_neg hnil, if_neg hpnil]
      rw [pystrip_idem]
      by_cases hb : (pystrip s).take 4 = "B64:".toList
      · rw [if_pos hb, if_pos hb]
        cases hdec : b64decode ((pystrip s).drop 4) with
        | none => rfl
        | some bytes =>
          dsimp only
          cases hutf : utf8Decode bytes with
          | none => rfl
          | some decoded =>
            dsimp only
            have hshrink := b64_unwrap_shrinks hb hdec hutf
            have hshrink' : (pystrip decoded).length < (pystrip s).length := by
              have hstrip4 : 4 ≤ (pystrip s).length := by
                have := congrArg List.length hb
                simp at this
                omega
              have h2 : bytes.length ≤ ((pystrip s).drop 4).length :=
                b64decode_length hdec
              have h3 : decoded.length ≤ bytes.length :=
                utf8DecodeF_length _ _ _ hutf
              have h4 : (pystrip decoded).length ≤ decoded.length :=
                pystrip_length_le _
              have h5 : ((pystrip s).drop 4).length = (pystrip s).length - 4 :=
                by simp
              omega
            rw [parseStr_fuel (pystrip s).length _ hshrink',
              parseStr_fuel s.length _ hshrink]
      · rw [if_neg hb, if_neg hb]

/-- One-step unfolding of the string dispatch at positive fuel. -/
theorem parseStr_succ (fuel : Nat) (s : PStr) :
    parseStr (fuel + 1) s =
      (if s = [] then .ok []
       else
         if (pystrip s).take 4 = "B64:".toList then
           match b64decode ((pystrip s).drop 4) with
           | none => .error .malformedBase64
           | some bytes =>
             match utf8Decode bytes with
             | none => .error .malformedBase64
             | some decoded => parseStr fuel (pystrip decoded)
         else if (pystrip s).take 1 = ['{'] then
           match jsonLoads (pystrip s) with
           | none => .error .malformedJson
           | some obj => .ok obj
         else if pystrip s = [] then .ok []
         else semiLoop [] ((pystrip s).splitOn ';')) := rfl

/-! ## Claims C7 and C8 -/

/-- C7: wrapping a parameter string in `B64:` plus its base64-encoded UTF-8
bytes decodes to exactly the same mapping as the plain string. -/
theorem claim_C7 (s : PStr) (d : PDict)
    (h : parse_params (.pstr s) = .ok d) :
    parse_params (.pstr ("B64:".toList ++ b64encodeBytes (utf8Encode s))) =
      .ok d := by
  have hbytes : ∀ x ∈ utf8Encode s, x < 256 := utf8Encode_lt_256 s
  have hnws : ∀ c ∈ "B64:".toList ++ b64encodeBytes (utf8Encode s),
      pyWs c = false := by
    intro c hc
    rw [List.mem_append] at hc
    rcases hc with hc | hc
    · simp at hc
      rcases hc with rfl | rfl | rfl | rfl <;> decide
    · rcases b64encodeBytes_chars _ hbytes c hc with ⟨n, hn, rfl⟩ | rfl
      · exact pyWs_b64charOf n hn
      · decide
  have hstrip := pystrip_of_all hnws
  have htne : ¬ "B64:".toList ++ b64encodeBytes (utf8Encode s) = [] := by
    simp
  show parseStr _ _ = .ok d
  rw [parseStr_succ]
  rw [if_neg htne, hstrip]
  rw [if_pos (List.take_left' (by decide)), List.drop_left' (by decide)]
  rw [b64decode_encode hbytes]
  dsimp only
  rw [utf8Decode_encode s]
  dsimp only
  have hlen : (pystrip s).length <
      ("B64:".toList ++ b64encodeBytes (utf8Encode s)).length := by
    have h1 := pystrip_length_le s
    have h2 := utf8Encode_length_ge s
    have h3 := b64encodeBytes_length_ge (utf8Encode s)
    have h4 : ("B64:".toList : List Char).length = 4 := rfl
    simp only [List.length_append]
    omega
  rw [parseStr_fuel _ _ hlen, parseStr_strip s]
  exact h

/-- Witness for C7 at the concrete string `key1=value1;key2=value2`. -/
theorem claim_C7_witness :
    parse_params (.pstr ("B64:".toList ++
        b64encodeBytes (utf8Encode "key1=value1;key2=value2".toList))) =
      .ok [("key1".toList, .jstr "value1".toList),
           ("key2".toList, .jstr "value2".toList)] :=
  claim_C7 "key1=value1;key2=value2".toList _ rfl

/-- The semicolon-pair loop only raises the missing-equals or empty-key
errors. -/
theorem processPair_error {acc : PDict} {pr : PStr} {e : ParamErr}
    (h : processPair acc pr = .error e) :
    e = .missingEquals ∨ e = .emptyKey := by
  simp only [processPair] at h
  by_cases h1 : pystrip pr = []
  · rw [if_pos h1] at h; cases h
  · rw [if_neg h1] at h
    by_cases h2 : ¬ (pystrip pr).contains '=' = true
    · rw [if_pos h2] at h
      cases h
      exact Or.inl rfl
    · rw [if_neg h2] at h
      by_cases h3 : pystrip ((pystrip pr).takeWhile (fun c => ¬ c = '=')) = []
      · rw [if_pos h3] at h
        cases h
        exact Or.inr rfl
      · rw [if_neg h3] at h
        cases h

theorem semiLoop_error :
    ∀ (l : List PStr) (acc : PDict) (e : ParamErr),
      semiLoop acc l = .error e → e = .missingEquals ∨ e = .emptyKey := by
  intro l
  induction l with
  | nil => intro acc e h; cases h
  | cons pr rest ih =>
    intro acc e h
    simp only [semiLoop] at h
    cases hp : processPair acc pr with
    | error e' =>
      rw [hp] at h
      cases h
      exact processPair_error hp
    | ok acc' =>
      rw [hp] at h
      exact ih acc' e h

/-- A string input can only fail with one of the malformed-parameters
errors, never the wrong-argument-type error. -/
theorem parseStr_error_malformed :
    ∀ (fuel : Nat) (s : PStr) (e : ParamErr), s.length < fuel →
      parseStr fuel s = .error e → e.isMalformed = true := by
  intro fuel
  induction fuel using Nat.strong_induction_on with
  | _ fuel ihf =>
    intro s e hs h
    cases fuel with
    | zero => omega
    | succ f =>
      rw [parseStr_succ] at h
      by_cases hnil : s = []
      · rw [if_pos hnil] at h; cases h
      · rw [if_neg hnil] at h
        by_cases hb : (pystrip s).take 4 = "B64:".toList
        · rw [if_pos hb] at h
          cases hdec : b64decode ((pystrip s).drop 4) with
          | none => rw [hdec] at h; cases h; rfl
          | some bytes =>
            rw [hdec] at h
            dsimp only at h
            cases hutf : utf8Decode bytes with
            | none => rw [hutf] at h; cases h; rfl
            | some decoded =>
              rw [hutf] at h
              dsimp only at h
              have hshrink := b64_unwrap_shrinks hb hdec hutf
              exact ihf f (by omega) _ e (by omega) h
        · rw [if_neg hb] at h
          by_cases hj : (pystrip s).take 1 = ['{']
          · rw [if_pos hj] at h
            cases hjson : jsonLoads (pystrip s) with
            | none => rw [hjson] at h; cases h; rfl
            | some obj => rw [hjson] at h; cases h
          · rw [if_neg hj] at h
            by_cases hp : pystrip s = []
            · rw [if_pos hp] at h; cases h
            · rw [if_neg hp] at h
              rcases semiLoop_error _ _ _ h with rfl | rfl <;> rfl

/-- C8: the decoder fails on exactly the specified inputs - a non-string
argument gives the invalid-argument error; bad base64 or undecodable UTF-8
after `B64:`, bad JSON after `\x7b`, a pair without `=` and an empty key give
the malformed-parameters errors (and nothing else does); `None` and the
empty string yield the empty mapping without error. -/
theorem claim_C8 :
    (parse_params .pother = .error .invalidArgument) ∧
    (parse_params .pnone = .ok []) ∧
    (parse_params (.pstr []) = .ok []) ∧
    (∀ s e, parse_params (.pstr s) = .error e → e.isMalformed = true) ∧
    (∀ s, (pystrip s).take 4 = "B64:".toList →
      b64decode ((pystrip s).drop 4) = none →
      parse_params (.pstr s) = .error .malformedBase64) ∧
    (∀ s bytes, (pystrip s).take 4 = "B64:".toList →
      b64decode ((pystrip s).drop 4) = some bytes → utf8Decode bytes = none →
      parse_params (.pstr s) = .error .malformedBase64) ∧
    (∀ s, ¬ (pystrip s).take 4 = "B64:".toList →
      (pystrip s).take 1 = ['{'] → jsonLoads (pystrip s) = none →
      parse_params (.pstr s) = .error .malformedJson) ∧
    (∀ acc pr, ¬ pystrip pr = [] → (pystrip pr).contains '=' = false →
      processPair acc pr = .error .missingEquals) ∧
    (∀ acc pr, (pystrip pr).contains '=' = true →
      pystrip ((pystrip pr).takeWhile (fun c => ¬ c = '=')) = [] →
      processPair acc pr = .error .emptyKey) := by
  refine ⟨rfl, rfl, rfl, ?_, ?_, ?_, ?_, ?_, ?_⟩
  · intro s e h
    exact parseStr_error_malformed (s.length + 1) s e (by omega) h
  · intro s hb hdec
    have hnil : ¬ s = [] := by
      intro hs
      subst hs
      simp [pystrip] at hb
    show parseStr _ _ = _
    rw [parseStr_succ]
    rw [if_neg hnil, if_pos hb, hdec]
  · intro s bytes hb hdec hutf
    have hnil : ¬ s = [] := by
      intro hs
      subst hs
      simp [pystrip] at hb
    show parseStr _ _ = _
    rw [parseStr_succ]
    rw [if_neg hnil, if_pos hb, hdec]
    dsimp only
    rw [hutf]
  · intro s hb hj hjson
    have hnil : ¬ s = [] := by
      intro hs
      subst hs
      simp [pystrip] at hj
    show parseStr _ _ = _
    rw [parseStr_succ]
    rw [if_neg hnil, if_neg hb, if_pos hj, hjson]
  · intro acc pr hne hnoeq
    simp only [processPair]
    rw [if_neg hne, if_pos (by simpa using hnoeq)]
  · intro acc pr heq hkey
    have hne : ¬ pystrip pr = [] := by
      intro hp
      rw [hp] at heq
      simp [List.contains] at heq
    simp only [processPair]
    rw [if_neg hne, if_neg (by simpa using heq), if_pos hkey]

/-- Witness for C8: every failing clause instantiated at a concrete input. -/
theorem claim_C8_witness :
    parse_params .pother = .error .invalidArgument ∧
    parse_params (.pstr "B64:A".toList) = .error .malformedBase64 ∧
    parse_params (.pstr ('{' :: 'x' :: [])) = .error .malformedJson ∧
    processPair [] "noequals".toList = .error .missingEquals ∧
    processPair [] "=v".toList = .error .emptyKey ∧
    parse_params (.pstr []) = .ok [] :=
  ⟨claim_C8.1,
   claim_C8.2.2.2.2.1 "B64:A".toList rfl rfl,
   claim_C8.2.2.2.2.2.2.1 ('{' :: 'x' :: []) (by decide) rfl rfl,
   claim_C8.2.2.2.2.2.2.2.1 [] "noequals".toList (by decide) (by decide),
   claim_C8.2.2.2.2.2.2.2.2 [] "=v".toList (by decide) (by decide),
   claim_C8.2.2.1⟩

end OdsBox
